import Mathlib

/-!
Upload orchestration of artifactdb.js

A shallow embedding of `src/src/uploadFiles.js` (`initializeUpload`, `uploadFiles`,
`completeUpload`) and theorems about it.

Modelling conventions.

* A JavaScript object used as a dictionary is the list that `Object.entries` produces for
  it, together with the fact that its keys are pairwise distinct (`JsObject`).
* A `throw` is the `Except.error` branch of the result; the thrown value is a `Thrown`.
* Every injected transport function (`postFun`, `putFun`, `presignedPutFun`, `getFun`) is
  taken to resolve to a `Response`. Each call that is made is appended to a log, so that
  "is never called" and "is called exactly n times" are statements about the log.
* JavaScript strings are Lean strings and `+` on strings is `++`.
* The operator `in` and a property read follow the prototype chain: the argument `contents`
  of `uploadFiles` is given with its own and its inherited properties (`Contents`).
-/

set_option autoImplicit false

namespace ArtifactDB

/-! ## JavaScript values used by the upload code -/

/-- Values that the upload code throws. `error` is `new Error(message)`; `httpError` is what
`checkHttpResponse` raises; `typeError` is the engine's error for reading a property of
`undefined`; `other` stands for a rejection supplied by the environment (for instance a body
that is not JSON). -/
inductive Thrown where
  | error (message : String)
  | httpError (context : String) (status : Nat)
  | typeError (property : String)
  | other (what : String)
  deriving DecidableEq, Repr

/-- The part of a fetch `Response` the code looks at: `ok`, `status`, the body as text
(`res.text()`) and the body parsed as JSON (`res.json()`), which can fail. -/
structure Response (J : Type) where
  ok : Bool
  status : Nat
  text : String
  json : Except Thrown J

/-- A JavaScript object used as a dictionary with string keys: its `Object.entries` in
enumeration order. The keys of an object are pairwise distinct. -/
structure JsObject (V : Type) where
  entries : List (String × V)
  nodup : (entries.map Prod.fst).Nodup

namespace JsObject

variable {V : Type}

/-- The empty object `{}`. -/
def empty : JsObject V := ⟨[], List.nodup_nil⟩

/-- The keys, in enumeration order (`Object.keys`). -/
def keys (o : JsObject V) : List String := o.entries.map Prod.fst

/-- The values, in enumeration order (`Object.values`). -/
def values (o : JsObject V) : List V := o.entries.map Prod.snd

/-- Read of the own property `k` of `o`; `none` when `o` has no own property `k`. -/
def get? (o : JsObject V) (k : String) : Option V :=
  (o.entries.find? (fun e => e.1 == k)).map Prod.snd

/-- The test `Object.hasOwn(o, k)`: `k` is one of the keys of `o` itself. -/
def has (o : JsObject V) (k : String) : Bool := o.keys.contains k

end JsObject

/-- The method `s.endsWith(t)`. -/
def endsWith (s t : String) : Bool := t.data.isSuffixOf s.data

/-- The method `s.startsWith(t)`. -/
def startsWith (s t : String) : Bool := t.data.isPrefixOf s.data

/-- The result of `await`ing a call: either it resolved to a value or it rejected. An async
function call whose result is not awaited leaves its rejection behind: nothing is thrown in
the caller. -/
abbrev Promise (α : Type) := Except Thrown α

/-- Modelled from the spec: `checkHttpResponse` of `src/HttpError.js`, which is not among
the sources. It is the generic "check response, raise on failure" helper: an async function
(every call site but one awaits it) whose promise rejects with an HTTP error carrying the
context string when the response is not 2xx, and resolves otherwise. -/
def checkHttpResponse {J : Type} (res : Response J) (msg : String) : Promise Unit :=
  if res.ok then .ok () else .error (.httpError msg res.status)

/-! ## `initializeUpload` -/

/-- The `value` field of a file descriptor: `{ md5sum }`, `{ md5sum, field }` or
`{ artifactdb_id }`; an absent property is `none`. -/
structure DescriptorValue where
  md5sum : Option String
  field : Option String
  artifactdb_id : Option String
  deriving DecidableEq, Repr

/-- An element of the `filenames` array: the bare path (API version 1) or a descriptor
`{ filename, check, value }`. -/
inductive Payload where
  | path (k : String)
  | descriptor (filename : String) (check : String) (value : DescriptorValue)
  deriving DecidableEq, Repr

/-- The request body handed to `postFun`. -/
structure UploadRequest where
  filenames : List Payload
  mode : String
  expires_in : Option String
  completed_by : Option String
  deriving DecidableEq, Repr

/-- The options of `initializeUpload` other than `postFun`, with their defaults. `expires`
is `none` for `null`; numbers are natural numbers. -/
structure InitOptions where
  autoDedupMd5 : Bool := true
  md5Field : String := "md5sum"
  dedupMd5Paths : JsObject String := JsObject.empty
  dedupLinkPaths : JsObject String := JsObject.empty
  expires : Option Nat := none
  apiVersion : Nat := 2

/-- The two local variables of the request construction: the array `filenames` and the set
`sofar` (a set of strings, kept as the list of added keys; `sofar.has` is membership). -/
structure BuildState where
  filenames : List Payload
  sofar : List String

/-- The payload built in the body of the loop over `checksums` (lines 47-58). -/
def checksumPayload (apiVersion : Nat) (autoDedupMd5 : Bool) (md5Field : String)
    (k v : String) : Payload :=
  if apiVersion == 1 then
    .path k
  else if autoDedupMd5 && !endsWith k ".json" then
    .descriptor k "md5" { md5sum := some v, field := some md5Field, artifactdb_id := none }
  else
    .descriptor k "simple" { md5sum := some v, field := none, artifactdb_id := none }

/-- The loop over `Object.entries(checksums)` (lines 46-62). -/
def checksumsLoop (apiVersion : Nat) (autoDedupMd5 : Bool) (md5Field : String) :
    List (String × String) → BuildState → BuildState
  | [], st => st
  | (k, v) :: rest, st =>
    checksumsLoop apiVersion autoDedupMd5 md5Field rest
      { filenames := st.filenames ++ [checksumPayload apiVersion autoDedupMd5 md5Field k v],
        sofar := st.sofar ++ [k] }

/-- The loop over `Object.entries(dedupMd5Paths)` (lines 64-73). -/
def dedupMd5Loop (md5Field : String) :
    List (String × String) → BuildState → Except Thrown BuildState
  | [], st => .ok st
  | (k, v) :: rest, st =>
    if st.sofar.contains k then
      .error (.error ("multiple occurrences of path '" ++ k ++ "'"))
    else if endsWith k ".json" then
      .error (.error ("cannot deduplicate JSON file '" ++ k ++ "'"))
    else
      dedupMd5Loop md5Field rest
        { filenames := st.filenames ++
            [.descriptor k "md5"
              { md5sum := some v, field := some md5Field, artifactdb_id := none }],
          sofar := st.sofar ++ [k] }

/-- The loop over `Object.entries(dedupLinkPaths)` (lines 75-83); it does not add to
`sofar`. -/
def dedupLinkLoop : List (String × String) → BuildState → Except Thrown BuildState
  | [], st => .ok st
  | (k, v) :: rest, st =>
    if st.sofar.contains k then
      .error (.error ("multiple occurrences of path '" ++ k ++ "'"))
    else if endsWith k ".json" then
      .error (.error ("cannot deduplicate JSON file '" ++ k ++ "'"))
    else
      dedupLinkLoop rest
        { filenames := st.filenames ++
            [.descriptor k "link"
              { md5sum := none, field := none, artifactdb_id := some v }],
          sofar := st.sofar }

/-- The three loops in sequence (lines 43-83): the `filenames` array, or the error thrown
while building it. -/
def buildFilenames (checksums : JsObject String) (opts : InitOptions) :
    Except Thrown (List Payload) :=
  let st0 : BuildState := { filenames := [], sofar := [] }
  let st1 := checksumsLoop opts.apiVersion opts.autoDedupMd5 opts.md5Field checksums.entries st0
  match dedupMd5Loop opts.md5Field opts.dedupMd5Paths.entries st1 with
  | .error e => .error e
  | .ok st2 =>
    match dedupLinkLoop opts.dedupLinkPaths.entries st2 with
    | .error e => .error e
    | .ok st3 => .ok st3.filenames

/-- The request object `req` (lines 85-92). -/
def buildRequest (filenames : List Payload) (expires : Option Nat) : UploadRequest :=
  match expires with
  | none =>
    { filenames := filenames, mode := "s3-presigned-url",
      expires_in := none, completed_by := none }
  | some d =>
    let expires_in := "in " ++ toString d ++ " days"
    { filenames := filenames, mode := "s3-presigned-url",
      expires_in := some expires_in, completed_by := some expires_in }

/-- What a run of `initializeUpload` leaves behind: the calls made to `postFun` (URL and
body) and the value returned or thrown. -/
structure InitOutcome (S : Type) where
  posts : List (String × UploadRequest)
  result : Except Thrown S

/-- The function `initializeUpload(startUrl, checksums, options)` (lines 42-110). `S` is
the type of the session object parsed from the response. -/
def initializeUpload {S : Type} (startUrl : String) (checksums : JsObject String)
    (opts : InitOptions) (postFun : String → UploadRequest → Response S) : InitOutcome S :=
  match buildFilenames checksums opts with
  | .error e => { posts := [], result := .error e }
  | .ok filenames =>
    let req := buildRequest filenames opts.expires
    let res := postFun startUrl req
    match checkHttpResponse res "failed to start a project upload" with
    | .error e => { posts := [(startUrl, req)], result := .error e }
    | .ok _ => { posts := [(startUrl, req)], result := res.json }


/-! ## `uploadFiles` -/
/-- The argument `contents` as the operator `in` and a property read `contents[k]` see it:
the properties of the object itself (`own`) and the properties it inherits through its
prototype chain (`inherited`; for an object literal these are the properties of
`Object.prototype`, such as `constructor` and `toString`). File contents are strings; the
string given for an inherited property stands for its value. -/
structure Contents where
  own : JsObject String
  inherited : JsObject String

/-- The names `k` for which `k in contents` holds: own keys and inherited ones. -/
def Contents.properties (c : Contents) : List String :=
  c.own.keys ++ c.inherited.keys

/-- The property read `contents[k]`, along the prototype chain: the own property if there is
one, the inherited one otherwise. It is `none` exactly when `k in contents` is false. -/
def Contents.lookup (c : Contents) (k : String) : Option String :=
  match c.own.get? k with
  | some v => some v
  | none => c.inherited.get? k

/-- The properties that an object inherits from `Object.prototype`, each with a stand-in
for its value. -/
def objectPrototype : JsObject String :=
  ⟨[("constructor", "[function Object]"),
    ("__defineGetter__", "[function __defineGetter__]"),
    ("__defineSetter__", "[function __defineSetter__]"),
    ("hasOwnProperty", "[function hasOwnProperty]"),
    ("__lookupGetter__", "[function __lookupGetter__]"),
    ("__lookupSetter__", "[function __lookupSetter__]"),
    ("isPrototypeOf", "[function isPrototypeOf]"),
    ("propertyIsEnumerable", "[function propertyIsEnumerable]"),
    ("toString", "[function toString]"),
    ("valueOf", "[function valueOf]"),
    ("__proto__", "[object Object.prototype]"),
    ("toLocaleString", "[function toLocaleString]")], by decide⟩

/-- An object literal with the given own properties: its prototype is
`Object.prototype`. -/
def plainObject (own : JsObject String) : Contents :=
  { own := own, inherited := objectPrototype }


/-- An element of `initial.links` in its array form. -/
structure LinkEntry where
  filename : String
  url : String
  deriving DecidableEq, Repr

/-- An element of `initial.presigned_urls` in its array form. -/
structure PresignedEntry where
  filename : String
  url : String
  md5sum : String
  deriving DecidableEq, Repr

/-- The field `initial.links`: an array of `{ filename, url }` (new API) or a dictionary
of full URLs (old API). -/
inductive Links where
  | array (xs : List LinkEntry)
  | map (o : JsObject String)

/-- The field `initial.presigned_urls`: an array of `{ filename, url, md5sum }` (new API)
or a dictionary from path to URL (old API). -/
inductive PresignedUrls where
  | array (xs : List PresignedEntry)
  | map (o : JsObject String)

/-- The object returned by `initializeUpload` and consumed by the other functions. -/
structure UploadSession where
  links : Links
  presigned_urls : PresignedUrls
  completion_url : String
  abort_url : String

/-- A request issued by `uploadFiles`: `putFun(url)` or
`presignedPutFun(path, url, md5sum, value)`; a `null` checksum is `none`. -/
inductive Call where
  | put (url : String)
  | presignedPut (path url : String) (md5sum : Option String) (value : String)
  deriving DecidableEq, Repr

/-- The transport `putFun` of `uploadFiles`: the response to its `n`-th call (counted from
0) with the given URL. -/
abbrev PutFun := Nat → String → Response Unit

/-- The transport `presignedPutFun`: the response to its `n`-th call (counted from 0) with
the given path, URL, checksum and contents. -/
abbrev PresignedPutFun := Nat → String → String → Option String → String → Response Unit

/-- The loop `promises.push(putFun(...))` over the link URLs, then `Promise.all`: the
responses in index order. The second argument is the number of calls made so far. -/
def issueLinkPuts (putFun : PutFun) : List String → Nat → List (Response Unit)
  | [], _ => []
  | u :: rest, n => putFun n u :: issueLinkPuts putFun rest (n + 1)

/-- The expression `initial.links[i].filename` when `initial.links` is an array; reading
`.filename` of `undefined` throws. -/
def linkPathArray (xs : List LinkEntry) (i : Nat) : Except Thrown String :=
  match xs[i]? with
  | some x => .ok x.filename
  | none => .error (.typeError "filename")

/-- The expression `initial.links[i]` when `initial.links` is a dictionary, as it is
concatenated into the message: the property named by the decimal form of `i`, and
`"undefined"` when there is none. -/
def linkPathMap (o : JsObject String) (i : Nat) : Except Thrown String :=
  match o.get? (toString i) with
  | some v => .ok v
  | none => .ok "undefined"

/-- The loop `for (var i = 0; i < responses.length; i++) await err.checkHttpResponse(...)`
of the link phase (lines 164-166 and 174-176); `pathAt i` is the expression spliced into
the context message. -/
def checkLinkResponses (pathAt : Nat → Except Thrown String) :
    List (Response Unit) → Nat → Except Thrown Unit
  | [], _ => .ok ()
  | r :: rest, i =>
    match pathAt i with
    | .error e => .error e
    | .ok p =>
      match checkHttpResponse r ("failed to create links for path '" ++ p ++ "'") with
      | .error e => .error e
      | .ok _ => checkLinkResponses pathAt rest (i + 1)

/-- The loop over `initial.presigned_urls` when it is an array (lines 200-205). The state
is the log of calls and the array `promises`. The test `x.filename in contents` is a lookup
along the prototype chain: it fails, and the loop throws, only for a path that is neither
an own nor an inherited property of `contents`; otherwise `contents[x.filename]` is
passed on. -/
def presignedArrayLoop (contents : Contents) (presignedPutFun : PresignedPutFun) :
    List PresignedEntry → List Call → List (Response Unit) →
      List Call × Except Thrown (List (Response Unit))
  | [], calls, promises => (calls, .ok promises)
  | x :: rest, calls, promises =>
    match contents.lookup x.filename with
    | none => (calls, .error (.error ("failed to find path '" ++ x.filename ++ "' in contents")))
    | some value =>
      presignedArrayLoop contents presignedPutFun rest
        (calls ++ [.presignedPut x.filename x.url (some x.md5sum) value])
        (promises ++ [presignedPutFun promises.length x.filename x.url (some x.md5sum) value])

/-- The loop over `Object.entries(initial.presigned_urls)` when it is a dictionary (lines
207-212); the checksum passed is `null`. The test `name in contents` is a lookup along the
prototype chain, as in the array branch. -/
def presignedMapLoop (contents : Contents) (presignedPutFun : PresignedPutFun) :
    List (String × String) → List Call → List (Response Unit) →
      List Call × Except Thrown (List (Response Unit))
  | [], calls, promises => (calls, .ok promises)
  | (name, url) :: rest, calls, promises =>
    match contents.lookup name with
    | none => (calls, .error (.error ("failed to find path '" ++ name ++ "' in contents")))
    | some value =>
      presignedMapLoop contents presignedPutFun rest
        (calls ++ [.presignedPut name url none value])
        (promises ++ [presignedPutFun promises.length name url none value])

/-- The expression `initial.presigned_urls[i].filename` (line 224) when
`initial.presigned_urls` is an array. -/
def presignedPathArray (xs : List PresignedEntry) (i : Nat) : Except Thrown String :=
  match xs[i]? with
  | some x => .ok x.filename
  | none => .error (.typeError "filename")

/-- The expression `initial.presigned_urls[i].filename` (line 224) when
`initial.presigned_urls` is a dictionary: the property named by the decimal form of `i` is
read first. Without such a property, reading `.filename` of `undefined` throws; with one,
the value is a URL string, whose `.filename` is `undefined`. -/
def presignedPathMap (o : JsObject String) (i : Nat) : Except Thrown String :=
  match o.get? (toString i) with
  | some _ => .ok "undefined"
  | none => .error (.typeError "filename")

/-- The loop over `responses` that ends the content phase (lines 217-225). -/
def checkPresignedResponses (pathAt : Nat → Except Thrown String) :
    List (Response Unit) → Nat → Except Thrown Unit
  | [], _ => .ok ()
  | res :: rest, i =>
    if res.ok then
      checkPresignedResponses pathAt rest (i + 1)
    else
      let txt := res.text
      match pathAt i with
      | .error e => .error e
      | .ok p =>
        .error (.error ("failed to upload to presigned URL for path '" ++ p ++ "': " ++ txt))

/-- What a run of `uploadFiles` leaves behind: the requests issued, in order, and whether
it returned or threw. -/
structure UploadOutcome where
  calls : List Call
  result : Except Thrown Unit

/-- The link phase of `uploadFiles` (lines 156-178): the requests issued and whether the
checks passed. -/
def linkPhase (baseUrl : String) (links : Links) (putFun : PutFun) :
    List Call × Except Thrown Unit :=
  match links with
  | .array xs =>
    let urls := xs.map (fun x => baseUrl ++ x.url)
    (urls.map Call.put, checkLinkResponses (linkPathArray xs) (issueLinkPuts putFun urls 0) 0)
  | .map o =>
    let urls := o.values
    (urls.map Call.put, checkLinkResponses (linkPathMap o) (issueLinkPuts putFun urls 0) 0)

/-- The content phase of `uploadFiles` (lines 197-226). -/
def contentPhase (presigned_urls : PresignedUrls) (contents : Contents)
    (presignedPutFun : PresignedPutFun) : List Call × Except Thrown Unit :=
  match presigned_urls with
  | .array xs =>
    match presignedArrayLoop contents presignedPutFun xs [] [] with
    | (calls, .error e) => (calls, .error e)
    | (calls, .ok responses) =>
      (calls, checkPresignedResponses (presignedPathArray xs) responses 0)
  | .map o =>
    match presignedMapLoop contents presignedPutFun o.entries [] [] with
    | (calls, .error e) => (calls, .error e)
    | (calls, .ok responses) =>
      (calls, checkPresignedResponses (presignedPathMap o) responses 0)

/-- The function `uploadFiles(baseUrl, initial, contents, { putFun, presignedPutFun })`
(lines 151-229). -/
def uploadFiles (baseUrl : String) (initial : UploadSession) (contents : Contents)
    (putFun : PutFun) (presignedPutFun : PresignedPutFun) : UploadOutcome :=
  match linkPhase baseUrl initial.links putFun with
  | (calls, .error e) => { calls := calls, result := .error e }
  | (calls, .ok _) =>
    match contentPhase initial.presigned_urls contents presignedPutFun with
    | (calls2, r) => { calls := calls ++ calls2, result := r }

/-! ## `completeUpload` -/

/-- The body of the completion request: `read_access` and the optional `owners` and
`viewers`. -/
structure Permissions where
  read_access : String
  owners : Option (List String)
  viewers : Option (List String)
  deriving DecidableEq, Repr

/-- The value of `job_info.job_id` in the completion response: a string or a number. -/
inductive JobId where
  | str (s : String)
  | num (n : Nat)
  deriving DecidableEq, Repr

/-- The conversion `String(job_info.job_id)`. -/
def JobId.toJsString : JobId → String
  | .str s => s
  | .num n => toString n

/-- The parsed body of the completion response. -/
structure JobInfo where
  job_id : JobId
  deriving DecidableEq, Repr

/-- The parsed body of a job-status response; only `status` is read. -/
structure JobState where
  status : String
  deriving DecidableEq, Repr

/-- The options of `completeUpload` other than the transports, with their defaults.
`indexWait` is in seconds. -/
structure CompleteOptions where
  indexWait : Int := 600
  isPublic : Bool := true
  viewers : Option (List String) := none
  owners : Option (List String) := none

/-- The object returned by `completeUpload`. -/
structure CompleteResult where
  indexed : Bool
  job_id : JobId
  deriving DecidableEq, Repr

/-- What a run of `completeUpload` leaves behind: the calls to `putFun`, the URLs passed
to `getFun` in order, the number of times `Date.now()` was read, and the value returned or
thrown. -/
structure CompleteOutcome where
  puts : List (String × Permissions)
  gets : List String
  clockReads : Nat
  result : Except Thrown CompleteResult

/-- The state that the polling loop changes: how often the clock was read and which
status requests were issued. -/
structure PollState where
  clockReads : Nat
  gets : List String
  deriving DecidableEq, Repr

/-- The `permissions` object (lines 269-275). -/
def buildPermissions (opts : CompleteOptions) : Permissions :=
  { read_access := if opts.isPublic then "public" else "viewers",
    owners := opts.owners,
    viewers := opts.viewers }

/-- The completion URL (lines 277-282): absolute in the old API, relative otherwise. -/
def completionUrl (baseUrl : String) (initial : UploadSession) : String :=
  if startsWith initial.completion_url "http" then
    initial.completion_url
  else
    baseUrl ++ initial.completion_url

/-- The loop `while (Date.now() - start < indexWait * 1000)` (lines 294-308). `clock k` is
the value of the `k`-th reading of `Date.now()` in milliseconds and `getFun k url` the
response to the `k`-th status request (both counted from 0). The first argument bounds the
number of loop tests; `none` means the bound was reached. The result is the final value of
`okay`, or the error thrown.

The promise of line 295 is resolved while it is constructed (`resolve(null)` is evaluated
as the argument of `setTimeout`), so the `await` there changes nothing in the state. The
call of `checkHttpResponse` on line 299 is not awaited: its promise is dropped. -/
def pollLoop (clock : Nat → Int) (getFun : Nat → String → Response JobState)
    (baseUrl job_str : String) (start indexWait : Int) :
    Nat → PollState → Option (PollState × Except Thrown Bool)
  | 0, _ => none
  | fuel + 1, s =>
    let now := clock s.clockReads
    let s1 : PollState := { s with clockReads := s.clockReads + 1 }
    if now - start < indexWait * 1000 then
      let status_url := baseUrl ++ "/jobs/" ++ job_str
      let res := getFun s1.gets.length status_url
      let s2 : PollState := { s1 with gets := s1.gets ++ [status_url] }
      let _dropped : Promise Unit :=
        checkHttpResponse res ("failed to query status for job " ++ job_str)
      match res.json with
      | .error e => some (s2, .error e)
      | .ok state =>
        if state.status == "SUCCESS" then
          some (s2, .ok true)
        else if state.status == "FAILURE" then
          some (s2, .error (.error ("indexing failure on job " ++ job_str ++ ", see " ++
            status_url ++ " for more details")))
        else
          pollLoop clock getFun baseUrl job_str start indexWait fuel s2
    else
      some (s1, .ok false)

/-- The function `completeUpload(baseUrl, initial, options)` (lines 264-311), run with a
bound `fuel` on the number of loop tests. -/
def completeUpload (baseUrl : String) (initial : UploadSession) (opts : CompleteOptions)
    (putFun : String → Permissions → Response JobInfo)
    (getFun : Nat → String → Response JobState) (clock : Nat → Int) (fuel : Nat) :
    Option CompleteOutcome :=
  let permissions := buildPermissions opts
  let url := completionUrl baseUrl initial
  let res := putFun url permissions
  match checkHttpResponse res "failed to complete the project upload" with
  | .error e =>
    some { puts := [(url, permissions)], gets := [], clockReads := 0, result := .error e }
  | .ok _ =>
    match res.json with
    | .error e =>
      some { puts := [(url, permissions)], gets := [], clockReads := 0, result := .error e }
    | .ok job_info =>
      let job_str := job_info.job_id.toJsString
      let start := clock 0
      match pollLoop clock getFun baseUrl job_str start opts.indexWait fuel
          { clockReads := 1, gets := [] } with
      | none => none
      | some (s, .error e) =>
        some { puts := [(url, permissions)], gets := s.gets, clockReads := s.clockReads,
               result := .error e }
      | some (s, .ok okay) =>
        some { puts := [(url, permissions)], gets := s.gets, clockReads := s.clockReads,
               result := .ok { indexed := okay, job_id := job_info.job_id } }

/-! ## Vocabulary for the statements -/

/-- The descriptor appended for an entry of `dedupMd5Paths`. -/
def md5Descriptor (md5Field : String) (e : String × String) : Payload :=
  .descriptor e.1 "md5" { md5sum := some e.2, field := some md5Field, artifactdb_id := none }

/-- The descriptor appended for an entry of `dedupLinkPaths`. -/
def linkDescriptor (e : String × String) : Payload :=
  .descriptor e.1 "link" { md5sum := none, field := none, artifactdb_id := some e.2 }

/-- The URLs that the link phase passes to `putFun`, in order. -/
def linkUrls (baseUrl : String) : Links → List String
  | .array xs => xs.map (fun x => baseUrl ++ x.url)
  | .map o => o.values

/-- The presigned entries of a session in either shape, as triples of the path, the URL
and the checksum argument that `presignedPutFun` receives for them. -/
def presignedItems : PresignedUrls → List (String × String × Option String)
  | .array xs => xs.map (fun x => (x.filename, x.url, some x.md5sum))
  | .map o => o.entries.map (fun e => (e.1, e.2, none))

/-- The paths of the presigned entries, in order. -/
def presignedPaths (p : PresignedUrls) : List String :=
  (presignedItems p).map (fun t => t.1)

/-- The request that the content phase issues for a presigned entry. -/
def presignedCallOf (contents : Contents) (t : String × String × Option String) : Call :=
  .presignedPut t.1 t.2.1 t.2.2 ((contents.lookup t.1).getD "")

/-- The two loops of the content phase, written once over `presignedItems`. -/
def presignedItemsLoop (contents : Contents) (presignedPutFun : PresignedPutFun) :
    List (String × String × Option String) → List Call → List (Response Unit) →
      List Call × Except Thrown (List (Response Unit))
  | [], calls, promises => (calls, .ok promises)
  | (path, url, md5) :: rest, calls, promises =>
    match contents.lookup path with
    | none => (calls, .error (.error ("failed to find path '" ++ path ++ "' in contents")))
    | some value =>
      presignedItemsLoop contents presignedPutFun rest
        (calls ++ [.presignedPut path url md5 value])
        (promises ++ [presignedPutFun promises.length path url md5 value])

/-- The responses of the content phase when every path has contents: the `n`-th call of
`presignedPutFun` is made for the `n`-th presigned entry. The last argument is the number
of calls made before. -/
def presignedResponses (contents : Contents) (presignedPutFun : PresignedPutFun) :
    List (String × String × Option String) → Nat → List (Response Unit)
  | [], _ => []
  | (path, url, md5) :: rest, n =>
    presignedPutFun n path url md5 ((contents.lookup path).getD "") ::
      presignedResponses contents presignedPutFun rest (n + 1)

/-- The job-status URL that `completeUpload` polls. -/
def statusUrl (baseUrl : String) (job_info : JobInfo) : String :=
  baseUrl ++ "/jobs/" ++ job_info.job_id.toJsString

/-- The body of the status response parses and its `status` is the given string. -/
def reports (res : Response JobState) (status : String) : Bool :=
  match res.json with
  | .ok state => state.status == status
  | .error _ => false

/-- The body of the status response parses and its `status` is neither `"SUCCESS"` nor
`"FAILURE"`: the job is still pending. -/
def reportsPending (res : Response JobState) : Bool :=
  match res.json with
  | .ok state => state.status != "SUCCESS" && state.status != "FAILURE"
  | .error _ => false

/-- The same request with the checksum argument replaced by `null`; a link request is
left as it is. -/
def Call.withoutChecksum : Call → Call
  | .put url => .put url
  | .presignedPut path url _ value => .presignedPut path url none value

/-! ## Sample inputs -/

/-- A transport that answers every POST with an empty 200 response. -/
def acceptingPost : String → UploadRequest → Response Unit :=
  fun _ _ => { ok := true, status := 200, text := "", json := .ok () }

/-- A `putFun` that answers every request with an empty 200 response. -/
def acceptingPut : PutFun :=
  fun _ _ => { ok := true, status := 200, text := "", json := .ok () }

/-- A `presignedPutFun` that answers every request with a 403 response. -/
def rejectingPresignedPut : PresignedPutFun :=
  fun _ _ _ _ _ => { ok := false, status := 403, text := "denied", json := .ok () }

/-- A session in the old wire shape with one presigned entry and no links. -/
def legacySession : UploadSession :=
  { links := .map JsObject.empty,
    presigned_urls := .map ⟨[("a.txt", "http://s3/a")], by simp⟩,
    completion_url := "/complete", abort_url := "/abort" }

/-- A session in the new wire shape with one link and two presigned entries. -/
def arraySession : UploadSession :=
  { links := .array [{ filename := "l.bin", url := "/link/l" }],
    presigned_urls := .array
      [{ filename := "a.txt", url := "http://s3/a", md5sum := "m1" },
       { filename := "b.txt", url := "http://s3/b", md5sum := "m2" }],
    completion_url := "/complete", abort_url := "/abort" }

/-- A `putFun` for the completion request that answers 200 with the job id `"job-7"`. -/
def completingPut : String → Permissions → Response JobInfo :=
  fun _ _ => { ok := true, status := 200, text := "", json := .ok { job_id := .str "job-7" } }

/-- A status response with the given `ok` flag, status code and `status` field. -/
def statusResponse (ok : Bool) (code : Nat) (status : String) : Response JobState :=
  { ok := ok, status := code, text := "", json := .ok { status := status } }

/-- A clock that starts at 1000 ms and has advanced 5000 ms at each further reading. -/
def steadyClock : Nat → Int := fun k => 1000 + 5000 * k

/-- A job that is `PENDING` at the first two polls and `SUCCESS` from then on. -/
def pendingTwiceThenSuccess : Nat → String → Response JobState :=
  fun k _ => statusResponse true 200 (if k < 2 then "PENDING" else "SUCCESS")

/-- A job that is `PENDING` at the first poll and `FAILURE` from then on. -/
def pendingThenFailure : Nat → String → Response JobState :=
  fun k _ => statusResponse true 200 (if k < 1 then "PENDING" else "FAILURE")

/-- A job that is `PENDING` at every poll. -/
def alwaysPending : Nat → String → Response JobState :=
  fun _ _ => statusResponse true 200 "PENDING"

/-- A status endpoint that answers the first poll with a 500 response whose body has
`status: "error"`, and every later poll with 200 and `SUCCESS`. -/
def serverErrorThenSuccess : Nat → String → Response JobState :=
  fun k _ => if k < 1 then statusResponse false 500 "error" else statusResponse true 200 "SUCCESS"

/-- A `putFun` that answers every request with a 500 response. -/
def rejectingPut : PutFun :=
  fun _ _ => { ok := false, status := 500, text := "", json := .ok () }

/-- A session in the old wire shape with one link, stored under its path as a full URL,
and no presigned entries. -/
def legacyLinkSession : UploadSession :=
  { links := .map ⟨[("l.bin", "http://h/link/l")], by simp⟩,
    presigned_urls := .map JsObject.empty,
    completion_url := "/complete", abort_url := "/abort" }

/-- The session `arraySession` in the old wire shape, for the base URL `"http://h"`: the
same entries in the same order, links as full URLs. -/
def arraySessionAsMap : UploadSession :=
  { links := .map ⟨[("l.bin", "http://h/link/l")], by simp⟩,
    presigned_urls := .map ⟨[("a.txt", "http://s3/a"), ("b.txt", "http://s3/b")], by decide⟩,
    completion_url := "/complete", abort_url := "/abort" }

/-- Contents for both files of `arraySession`. -/
def bothContents : Contents :=
  plainObject ⟨[("a.txt", "hello"), ("b.txt", "world")], by decide⟩

/-- A `presignedPutFun` that answers every request with an empty 200 response. -/
def acceptingPresignedPut : PresignedPutFun :=
  fun _ _ _ _ _ => { ok := true, status := 200, text := "", json := .ok () }

/-- A session in the new wire shape with no links and one presigned entry, whose path is
the name of a property of `Object.prototype`. -/
def inheritedNameSession : UploadSession :=
  { links := .array [],
    presigned_urls := .array
      [{ filename := "constructor", url := "http://s3/c", md5sum := "m0" }],
    completion_url := "/complete", abort_url := "/abort" }

/-! ## Facts about the request construction -/

theorem checksumsLoop_eq (apiVersion : Nat) (autoDedupMd5 : Bool) (md5Field : String)
    (es : List (String × String)) (st : BuildState) :
    checksumsLoop apiVersion autoDedupMd5 md5Field es st =
      { filenames := st.filenames ++
          es.map (fun e => checksumPayload apiVersion autoDedupMd5 md5Field e.1 e.2),
        sofar := st.sofar ++ es.map Prod.fst } := by
  induction es generalizing st with
  | nil => simp [checksumsLoop]
  | cons e rest ih =>
    obtain ⟨k, v⟩ := e
    simp [checksumsLoop, ih, List.append_assoc]

theorem dedupMd5Loop_error (md5Field : String) (es : List (String × String)) (st : BuildState)
    (h : ∃ k ∈ es.map Prod.fst, k ∈ st.sofar ∨ endsWith k ".json" = true) :
    ∃ msg, dedupMd5Loop md5Field es st = .error (.error msg) := by
  induction es generalizing st with
  | nil => simp at h
  | cons e rest ih =>
    obtain ⟨k, v⟩ := e
    by_cases hc : st.sofar.contains k = true
    · exact ⟨_, by rw [dedupMd5Loop, if_pos hc]⟩
    · by_cases hj : endsWith k ".json" = true
      · exact ⟨_, by rw [dedupMd5Loop, if_neg hc, if_pos hj]⟩
      · rw [dedupMd5Loop, if_neg hc, if_neg hj]
        apply ih
        obtain ⟨k0, hk0, hbad⟩ := h
        simp only [List.map_cons, List.mem_cons] at hk0
        rcases hk0 with rfl | hk0
        · rcases hbad with hbad | hbad
          · exact absurd (by simpa using hbad) hc
          · exact absurd hbad hj
        · refine ⟨k0, hk0, ?_⟩
          rcases hbad with hbad | hbad
          · exact Or.inl (List.mem_append_left _ hbad)
          · exact Or.inr hbad

theorem dedupMd5Loop_ok_inv (md5Field : String) (es : List (String × String))
    (st st2 : BuildState) (h : dedupMd5Loop md5Field es st = .ok st2) :
    st2.filenames = st.filenames ++ es.map (md5Descriptor md5Field) ∧
      st2.sofar = st.sofar ++ es.map Prod.fst := by
  induction es generalizing st with
  | nil =>
    simp only [dedupMd5Loop, Except.ok.injEq] at h
    subst h
    simp
  | cons e rest ih =>
    obtain ⟨k, v⟩ := e
    unfold dedupMd5Loop at h
    split at h
    · exact absurd h (by simp)
    · split at h
      · exact absurd h (by simp)
      · have := ih _ h
        simpa [md5Descriptor, List.append_assoc] using this

theorem dedupMd5Loop_ok (md5Field : String) (es : List (String × String)) (st : BuildState)
    (hnodup : (es.map Prod.fst).Nodup)
    (hgood : ∀ k ∈ es.map Prod.fst, k ∉ st.sofar ∧ endsWith k ".json" = false) :
    dedupMd5Loop md5Field es st =
      .ok { filenames := st.filenames ++ es.map (md5Descriptor md5Field),
            sofar := st.sofar ++ es.map Prod.fst } := by
  induction es generalizing st with
  | nil => simp [dedupMd5Loop]
  | cons e rest ih =>
    obtain ⟨k, v⟩ := e
    simp only [List.map_cons, List.nodup_cons] at hnodup
    have hk := hgood k (by simp)
    have hc : st.sofar.contains k = false := by
      simpa using hk.1
    unfold dedupMd5Loop
    simp only [hc, hk.2, if_false, Bool.false_eq_true]
    rw [ih _ hnodup.2]
    · simp [md5Descriptor, List.append_assoc]
    · intro k0 hk0
      have h0 := hgood k0 (by simp [List.mem_map] at hk0 ⊢; exact Or.inr hk0)
      refine ⟨?_, h0.2⟩
      simp only [List.mem_append, List.mem_singleton, not_or]
      refine ⟨h0.1, ?_⟩
      rintro rfl
      exact hnodup.1 hk0

theorem dedupLinkLoop_error (es : List (String × String)) (st : BuildState)
    (h : ∃ k ∈ es.map Prod.fst, k ∈ st.sofar ∨ endsWith k ".json" = true) :
    ∃ msg, dedupLinkLoop es st = .error (.error msg) := by
  induction es generalizing st with
  | nil => simp at h
  | cons e rest ih =>
    obtain ⟨k, v⟩ := e
    by_cases hc : st.sofar.contains k = true
    · exact ⟨_, by rw [dedupLinkLoop, if_pos hc]⟩
    · by_cases hj : endsWith k ".json" = true
      · exact ⟨_, by rw [dedupLinkLoop, if_neg hc, if_pos hj]⟩
      · rw [dedupLinkLoop, if_neg hc, if_neg hj]
        apply ih
        obtain ⟨k0, hk0, hbad⟩ := h
        simp only [List.map_cons, List.mem_cons] at hk0
        rcases hk0 with rfl | hk0
        · rcases hbad with hbad | hbad
          · exact absurd (by simpa using hbad) hc
          · exact absurd hbad hj
        · exact ⟨k0, hk0, hbad⟩

theorem dedupLinkLoop_ok_inv (es : List (String × String)) (st st2 : BuildState)
    (h : dedupLinkLoop es st = .ok st2) :
    st2.filenames = st.filenames ++ es.map linkDescriptor := by
  induction es generalizing st with
  | nil =>
    simp only [dedupLinkLoop, Except.ok.injEq] at h
    subst h
    simp
  | cons e rest ih =>
    obtain ⟨k, v⟩ := e
    unfold dedupLinkLoop at h
    split at h
    · exact absurd h (by simp)
    · split at h
      · exact absurd h (by simp)
      · have := ih _ h
        simpa [linkDescriptor, List.append_assoc] using this

theorem dedupLinkLoop_ok (es : List (String × String)) (st : BuildState)
    (hgood : ∀ k ∈ es.map Prod.fst, k ∉ st.sofar ∧ endsWith k ".json" = false) :
    dedupLinkLoop es st =
      .ok { filenames := st.filenames ++ es.map linkDescriptor, sofar := st.sofar } := by
  induction es generalizing st with
  | nil => simp [dedupLinkLoop]
  | cons e rest ih =>
    obtain ⟨k, v⟩ := e
    have hk := hgood k (by simp)
    have hc : st.sofar.contains k = false := by
      simpa using hk.1
    unfold dedupLinkLoop
    simp only [hc, hk.2, if_false, Bool.false_eq_true]
    rw [ih]
    · simp [linkDescriptor, List.append_assoc]
    · intro k0 hk0
      exact hgood k0 (by simp [List.mem_map] at hk0 ⊢; exact Or.inr hk0)

theorem buildFilenames_error (checksums : JsObject String) (opts : InitOptions)
    (h : (∃ k ∈ opts.dedupMd5Paths.keys, k ∈ checksums.keys ∨ endsWith k ".json" = true) ∨
      (∃ k ∈ opts.dedupLinkPaths.keys,
        (k ∈ checksums.keys ∨ k ∈ opts.dedupMd5Paths.keys) ∨ endsWith k ".json" = true)) :
    ∃ msg, buildFilenames checksums opts = .error (.error msg) := by
  unfold buildFilenames
  simp only [checksumsLoop_eq, List.nil_append]
  cases hmd5 : dedupMd5Loop opts.md5Field opts.dedupMd5Paths.entries
      { filenames := checksums.entries.map
          (fun e => checksumPayload opts.apiVersion opts.autoDedupMd5 opts.md5Field e.1 e.2),
        sofar := checksums.entries.map Prod.fst } with
  | error e =>
    by_cases hm : ∃ k ∈ opts.dedupMd5Paths.keys, k ∈ checksums.keys ∨ endsWith k ".json" = true
    · obtain ⟨msg, hmsg⟩ := dedupMd5Loop_error opts.md5Field opts.dedupMd5Paths.entries
        { filenames := checksums.entries.map
            (fun e => checksumPayload opts.apiVersion opts.autoDedupMd5 opts.md5Field e.1 e.2),
          sofar := checksums.entries.map Prod.fst } hm
      rw [hmd5] at hmsg
      exact ⟨msg, by simpa using hmsg⟩
    · -- the loop threw although no key of `dedupMd5Paths` is bad: impossible
      have hok := dedupMd5Loop_ok opts.md5Field opts.dedupMd5Paths.entries
        { filenames := checksums.entries.map
            (fun e => checksumPayload opts.apiVersion opts.autoDedupMd5 opts.md5Field e.1 e.2),
          sofar := checksums.entries.map Prod.fst } opts.dedupMd5Paths.nodup
        (by
          intro k hk
          have hk2 : ¬ (k ∈ checksums.keys ∨ endsWith k ".json" = true) := fun hbad =>
            hm ⟨k, hk, hbad⟩
          simp only [not_or, Bool.not_eq_true] at hk2
          exact hk2)
      rw [hmd5] at hok
      exact absurd hok (by simp)
  | ok st2 =>
    obtain ⟨_, hsofar⟩ := dedupMd5Loop_ok_inv _ _ _ _ hmd5
    simp only at hsofar
    have hbad : ∃ k ∈ opts.dedupLinkPaths.entries.map Prod.fst,
        k ∈ st2.sofar ∨ endsWith k ".json" = true := by
      rcases h with ⟨k, hk, hb⟩ | ⟨k, hk, hb⟩
      · exfalso
        obtain ⟨msg, hmsg⟩ := dedupMd5Loop_error opts.md5Field opts.dedupMd5Paths.entries
          { filenames := checksums.entries.map
              (fun e => checksumPayload opts.apiVersion opts.autoDedupMd5 opts.md5Field e.1 e.2),
            sofar := checksums.entries.map Prod.fst } ⟨k, hk, hb⟩
        rw [hmd5] at hmsg
        exact absurd hmsg (by simp)
      · refine ⟨k, hk, ?_⟩
        rcases hb with hb | hb
        · left
          rw [hsofar]
          exact List.mem_append.mpr hb
        · exact Or.inr hb
    obtain ⟨msg, hmsg⟩ := dedupLinkLoop_error _ st2 hbad
    exact ⟨msg, by simp only [hmsg]⟩

theorem buildFilenames_ok (checksums : JsObject String) (opts : InitOptions)
    (hcm : ∀ k ∈ checksums.keys, k ∉ opts.dedupMd5Paths.keys)
    (hcl : ∀ k ∈ checksums.keys, k ∉ opts.dedupLinkPaths.keys)
    (hml : ∀ k ∈ opts.dedupMd5Paths.keys, k ∉ opts.dedupLinkPaths.keys)
    (hmj : ∀ k ∈ opts.dedupMd5Paths.keys, endsWith k ".json" = false)
    (hlj : ∀ k ∈ opts.dedupLinkPaths.keys, endsWith k ".json" = false) :
    buildFilenames checksums opts =
      .ok (checksums.entries.map
            (fun e => checksumPayload opts.apiVersion opts.autoDedupMd5 opts.md5Field e.1 e.2) ++
          opts.dedupMd5Paths.entries.map (md5Descriptor opts.md5Field) ++
          opts.dedupLinkPaths.entries.map linkDescriptor) := by
  unfold buildFilenames
  simp only [checksumsLoop_eq, List.nil_append]
  rw [dedupMd5Loop_ok _ _ _ opts.dedupMd5Paths.nodup]
  · simp only
    rw [dedupLinkLoop_ok]
    intro k hk
    refine ⟨?_, hlj k hk⟩
    simp only [List.mem_append, not_or]
    exact ⟨fun hc => hcl k hc hk, fun hm => hml k hm hk⟩
  · intro k hk
    exact ⟨fun hc => hcm k hc hk, hmj k hk⟩

theorem buildFilenames_ok_inv (checksums : JsObject String) (opts : InitOptions)
    (fs : List Payload) (h : buildFilenames checksums opts = .ok fs) :
    fs = checksums.entries.map
            (fun e => checksumPayload opts.apiVersion opts.autoDedupMd5 opts.md5Field e.1 e.2) ++
          opts.dedupMd5Paths.entries.map (md5Descriptor opts.md5Field) ++
          opts.dedupLinkPaths.entries.map linkDescriptor := by
  unfold buildFilenames at h
  simp only [checksumsLoop_eq, List.nil_append] at h
  split at h
  · exact absurd h (by simp)
  · rename_i st2 hmd5
    split at h
    · exact absurd h (by simp)
    · rename_i st3 hlink
      simp only [Except.ok.injEq] at h
      obtain ⟨h2, _⟩ := dedupMd5Loop_ok_inv _ _ _ _ hmd5
      have h3 := dedupLinkLoop_ok_inv _ _ _ hlink
      rw [← h, h3, h2]

theorem initializeUpload_of_build_error {S : Type} (startUrl : String)
    (checksums : JsObject String) (opts : InitOptions)
    (postFun : String → UploadRequest → Response S) (e : Thrown)
    (h : buildFilenames checksums opts = .error e) :
    initializeUpload startUrl checksums opts postFun = { posts := [], result := .error e } := by
  simp [initializeUpload, h]

theorem initializeUpload_posts_of_build_ok {S : Type} (startUrl : String)
    (checksums : JsObject String) (opts : InitOptions)
    (postFun : String → UploadRequest → Response S) (fs : List Payload)
    (h : buildFilenames checksums opts = .ok fs) :
    (initializeUpload startUrl checksums opts postFun).posts =
      [(startUrl, buildRequest fs opts.expires)] := by
  simp only [initializeUpload, h]
  split <;> rfl

theorem buildRequest_filenames (fs : List Payload) (expires : Option Nat) :
    (buildRequest fs expires).filenames = fs := by
  cases expires <;> rfl

theorem initializeUpload_posts_mem {S : Type} (startUrl : String)
    (checksums : JsObject String) (opts : InitOptions)
    (postFun : String → UploadRequest → Response S) (url : String) (req : UploadRequest)
    (h : (url, req) ∈ (initializeUpload startUrl checksums opts postFun).posts) :
    ∃ fs, buildFilenames checksums opts = .ok fs ∧ req = buildRequest fs opts.expires ∧
      url = startUrl := by
  cases hb : buildFilenames checksums opts with
  | error e =>
    rw [initializeUpload_of_build_error startUrl checksums opts postFun e hb] at h
    simp at h
  | ok fs =>
    rw [initializeUpload_posts_of_build_ok startUrl checksums opts postFun fs hb] at h
    simp only [List.mem_singleton, Prod.mk.injEq] at h
    exact ⟨fs, rfl, h.2, h.1⟩

theorem checksumPayload_md5 (apiVersion : Nat) (autoDedupMd5 : Bool) (md5Field k v : String)
    (hv : apiVersion ≠ 1) (ha : autoDedupMd5 = true) (hj : endsWith k ".json" = false) :
    checksumPayload apiVersion autoDedupMd5 md5Field k v =
      .descriptor k "md5"
        { md5sum := some v, field := some md5Field, artifactdb_id := none } := by
  simp [checksumPayload, hv, ha, hj]

theorem checksumPayload_simple (apiVersion : Nat) (autoDedupMd5 : Bool) (md5Field k v : String)
    (hv : apiVersion ≠ 1) (h : autoDedupMd5 = false ∨ endsWith k ".json" = true) :
    checksumPayload apiVersion autoDedupMd5 md5Field k v =
      .descriptor k "simple" { md5sum := some v, field := none, artifactdb_id := none } := by
  rcases h with h | h <;> simp [checksumPayload, hv, h]

/-! ## Facts about `uploadFiles` -/

theorem JsObject.get?_eq_none_iff {V : Type} (o : JsObject V) (k : String) :
    o.get? k = none ↔ k ∉ o.keys := by
  simp only [JsObject.get?, JsObject.keys, Option.map_eq_none', List.find?_eq_none,
    List.mem_map, not_exists, not_and]
  constructor
  · intro h e he hk
    exact h e he (by simp [hk])
  · intro h e he hk
    exact h e he (by simpa using hk)

theorem JsObject.get?_isSome_of_mem {V : Type} (o : JsObject V) (k : String)
    (h : k ∈ o.keys) : ∃ v, o.get? k = some v := by
  cases hg : o.get? k with
  | none => exact absurd h ((JsObject.get?_eq_none_iff o k).mp hg)
  | some v => exact ⟨v, rfl⟩

theorem Contents.lookup_eq_none_iff (c : Contents) (k : String) :
    c.lookup k = none ↔ k ∉ c.properties := by
  unfold Contents.lookup Contents.properties
  cases hown : c.own.get? k with
  | none =>
    have h1 := (JsObject.get?_eq_none_iff c.own k).mp hown
    simp only [List.mem_append, not_or, h1, not_false_eq_true, true_and]
    exact JsObject.get?_eq_none_iff c.inherited k
  | some v =>
    have h1 : k ∈ c.own.keys := by
      by_contra hk
      rw [(JsObject.get?_eq_none_iff c.own k).mpr hk] at hown
      exact absurd hown (by simp)
    simp [h1]

theorem Contents.lookup_isSome_of_mem (c : Contents) (k : String)
    (h : k ∈ c.properties) : ∃ v, c.lookup k = some v := by
  cases hg : c.lookup k with
  | none => exact absurd h ((Contents.lookup_eq_none_iff c k).mp hg)
  | some v => exact ⟨v, rfl⟩

theorem presignedArrayLoop_eq (contents : Contents) (presignedPutFun : PresignedPutFun)
    (xs : List PresignedEntry) (calls : List Call) (promises : List (Response Unit)) :
    presignedArrayLoop contents presignedPutFun xs calls promises =
      presignedItemsLoop contents presignedPutFun (presignedItems (.array xs)) calls promises := by
  induction xs generalizing calls promises with
  | nil => rfl
  | cons x rest ih =>
    simp only [presignedArrayLoop, presignedItems, List.map_cons, presignedItemsLoop]
    cases contents.lookup x.filename with
    | none => rfl
    | some value => exact ih _ _

theorem presignedMapLoop_eq (contents : Contents) (presignedPutFun : PresignedPutFun)
    (es : List (String × String)) (calls : List Call) (promises : List (Response Unit)) :
    presignedMapLoop contents presignedPutFun es calls promises =
      presignedItemsLoop contents presignedPutFun (es.map (fun e => (e.1, e.2, none)))
        calls promises := by
  induction es generalizing calls promises with
  | nil => rfl
  | cons e rest ih =>
    obtain ⟨name, url⟩ := e
    simp only [presignedMapLoop, List.map_cons, presignedItemsLoop]
    cases contents.lookup name with
    | none => rfl
    | some value => exact ih _ _

theorem presignedItemsLoop_missing (contents : Contents)
    (presignedPutFun : PresignedPutFun)
    (pre post : List (String × String × Option String)) (x : String × String × Option String)
    (calls : List Call) (promises : List (Response Unit))
    (hpre : ∀ y ∈ pre, y.1 ∈ contents.properties) (hx : x.1 ∉ contents.properties) :
    presignedItemsLoop contents presignedPutFun (pre ++ x :: post) calls promises =
      (calls ++ pre.map (presignedCallOf contents),
        .error (.error ("failed to find path '" ++ x.1 ++ "' in contents"))) := by
  induction pre generalizing calls promises with
  | nil =>
    obtain ⟨path, url, md5⟩ := x
    have hnone := (Contents.lookup_eq_none_iff contents path).mpr hx
    simp [presignedItemsLoop, hnone]
  | cons y rest ih =>
    obtain ⟨path, url, md5⟩ := y
    obtain ⟨value, hv⟩ := Contents.lookup_isSome_of_mem contents path
      (hpre (path, url, md5) (List.mem_cons_self _ _))
    simp only [List.cons_append, presignedItemsLoop, hv]
    refine (ih _ _ (fun z hz => hpre z (List.mem_cons_of_mem _ hz))).trans ?_
    simp [presignedCallOf, hv, List.append_assoc]

theorem exists_first_missing {α : Type} (p : α → Prop) (l : List α) (h : ∃ x ∈ l, p x) :
    ∃ pre x post, l = pre ++ x :: post ∧ (∀ y ∈ pre, ¬ p y) ∧ p x := by
  induction l with
  | nil => simp at h
  | cons a rest ih =>
    by_cases ha : p a
    · exact ⟨[], a, rest, rfl, by simp, ha⟩
    · have hrest : ∃ x ∈ rest, p x := by
        obtain ⟨x, hx, hpx⟩ := h
        rcases List.mem_cons.mp hx with rfl | hx
        · exact absurd hpx ha
        · exact ⟨x, hx, hpx⟩
      obtain ⟨pre, x, post, hl, hpre, hx⟩ := ih hrest
      refine ⟨a :: pre, x, post, by simp [hl], ?_, hx⟩
      intro y hy
      rcases List.mem_cons.mp hy with rfl | hy
      · exact ha
      · exact hpre y hy

theorem linkPhase_calls (baseUrl : String) (links : Links) (putFun : PutFun) :
    (linkPhase baseUrl links putFun).1 = (linkUrls baseUrl links).map Call.put := by
  cases links <;> rfl

theorem contentPhase_missing (presigned_urls : PresignedUrls) (contents : Contents)
    (presignedPutFun : PresignedPutFun)
    (pre post : List (String × String × Option String)) (x : String × String × Option String)
    (hsplit : presignedItems presigned_urls = pre ++ x :: post)
    (hpre : ∀ y ∈ pre, y.1 ∈ contents.properties) (hx : x.1 ∉ contents.properties) :
    contentPhase presigned_urls contents presignedPutFun =
      (pre.map (presignedCallOf contents),
        .error (.error ("failed to find path '" ++ x.1 ++ "' in contents"))) := by
  cases presigned_urls with
  | array xs =>
    simp only [contentPhase, presignedArrayLoop_eq, hsplit,
      presignedItemsLoop_missing contents presignedPutFun pre post x [] [] hpre hx,
      List.nil_append]
  | map o =>
    have hsplit2 : o.entries.map (fun e => ((e.1, e.2, none) : String × String × Option String))
        = pre ++ x :: post := hsplit
    simp only [contentPhase, presignedMapLoop_eq, hsplit2,
      presignedItemsLoop_missing contents presignedPutFun pre post x [] [] hpre hx,
      List.nil_append]

theorem presignedItemsLoop_present (contents : Contents)
    (presignedPutFun : PresignedPutFun) (items : List (String × String × Option String))
    (calls : List Call) (promises : List (Response Unit))
    (hall : ∀ y ∈ items, y.1 ∈ contents.properties) :
    presignedItemsLoop contents presignedPutFun items calls promises =
      (calls ++ items.map (presignedCallOf contents),
        .ok (promises ++ presignedResponses contents presignedPutFun items promises.length)) := by
  induction items generalizing calls promises with
  | nil => simp [presignedItemsLoop, presignedResponses]
  | cons y rest ih =>
    obtain ⟨path, url, md5⟩ := y
    obtain ⟨value, hv⟩ := Contents.lookup_isSome_of_mem contents path
      (hall (path, url, md5) (List.mem_cons_self _ _))
    simp only [presignedItemsLoop, hv]
    refine (ih _ _ (fun z hz => hall z (List.mem_cons_of_mem _ hz))).trans ?_
    simp [presignedCallOf, presignedResponses, hv, List.append_assoc]

theorem presignedResponses_length (contents : Contents)
    (presignedPutFun : PresignedPutFun) (items : List (String × String × Option String))
    (n : Nat) : (presignedResponses contents presignedPutFun items n).length = items.length := by
  induction items generalizing n with
  | nil => rfl
  | cons y rest ih =>
    obtain ⟨path, url, md5⟩ := y
    simp [presignedResponses, ih]

theorem checkPresignedResponses_first_failure (pathAt : Nat → Except Thrown String)
    (pre post : List (Response Unit)) (r : Response Unit) (i : Nat)
    (hpre : ∀ q ∈ pre, q.ok = true) (hr : r.ok = false) :
    checkPresignedResponses pathAt (pre ++ r :: post) i =
      match pathAt (i + pre.length) with
      | .error e => .error e
      | .ok p =>
        .error (.error ("failed to upload to presigned URL for path '" ++ p ++ "': " ++ r.text)) := by
  induction pre generalizing i with
  | nil => simp [checkPresignedResponses, hr]
  | cons q rest ih =>
    have hq := hpre q (List.mem_cons_self _ _)
    simp only [List.cons_append, checkPresignedResponses, hq, if_true]
    refine (ih (i + 1) (fun z hz => hpre z (List.mem_cons_of_mem _ hz))).trans ?_
    simp only [List.length_cons]
    rw [show i + 1 + rest.length = i + (rest.length + 1) by omega]

/-- For an array-shaped `presigned_urls` whose paths all have contents, after a link phase
that passes its checks: `presignedPutFun` is called once per entry, and if the response at
index `pre.length` is the first that is not ok, the error thrown names the path of that
entry and carries the response body. -/
theorem uploadFiles_array_failure_names_path (baseUrl : String) (initial : UploadSession)
    (contents : Contents) (putFun : PutFun) (presignedPutFun : PresignedPutFun)
    (xs : List PresignedEntry) (pre post : List (Response Unit)) (r : Response Unit)
    (hshape : initial.presigned_urls = .array xs)
    (hlinks : (linkPhase baseUrl initial.links putFun).2 = .ok ())
    (hall : ∀ x ∈ xs, x.filename ∈ contents.properties)
    (hresp : presignedResponses contents presignedPutFun (presignedItems (.array xs)) 0 =
      pre ++ r :: post)
    (hpre : ∀ q ∈ pre, q.ok = true) (hr : r.ok = false) :
    ∃ x, xs[pre.length]? = some x ∧
      uploadFiles baseUrl initial contents putFun presignedPutFun =
        { calls := (linkUrls baseUrl initial.links).map Call.put ++
            (presignedItems (.array xs)).map (presignedCallOf contents),
          result := .error (.error ("failed to upload to presigned URL for path '" ++
            x.filename ++ "': " ++ r.text)) } := by
  have hlen : pre.length < xs.length := by
    have h1 := congrArg List.length hresp
    rw [presignedResponses_length] at h1
    simp only [presignedItems, List.length_map, List.length_append, List.length_cons] at h1
    omega
  refine ⟨xs[pre.length], List.getElem?_eq_getElem hlen, ?_⟩
  have hitems : ∀ y ∈ presignedItems (.array xs), y.1 ∈ contents.properties := by
    intro y hy
    simp only [presignedItems, List.mem_map] at hy
    obtain ⟨x, hx, rfl⟩ := hy
    exact hall x hx
  have hcontent : contentPhase initial.presigned_urls contents presignedPutFun =
      ((presignedItems (.array xs)).map (presignedCallOf contents),
        .error (.error ("failed to upload to presigned URL for path '" ++
          xs[pre.length].filename ++ "': " ++ r.text))) := by
    rw [hshape]
    simp only [contentPhase, presignedArrayLoop_eq,
      presignedItemsLoop_present contents presignedPutFun _ [] [] hitems, List.nil_append,
      List.length_nil, hresp, checkPresignedResponses_first_failure _ pre post r 0 hpre hr,
      Nat.zero_add, presignedPathArray, List.getElem?_eq_getElem hlen]
  have hcalls := linkPhase_calls baseUrl initial.links putFun
  cases hl : linkPhase baseUrl initial.links putFun with
  | mk calls res =>
    rw [hl] at hcalls hlinks
    simp only at hcalls hlinks
    subst hlinks
    simp only [uploadFiles, hl, hcontent, hcalls]

theorem issueLinkPuts_length (putFun : PutFun) (urls : List String) (n : Nat) :
    (issueLinkPuts putFun urls n).length = urls.length := by
  induction urls generalizing n with
  | nil => rfl
  | cons u rest ih => simp [issueLinkPuts, ih]

theorem checkLinkResponses_eq_ok_iff (pathAt : Nat → Except Thrown String)
    (rs : List (Response Unit)) (i : Nat)
    (hpath : ∀ j, i ≤ j → j < i + rs.length → ∃ p, pathAt j = .ok p) :
    checkLinkResponses pathAt rs i = .ok () ↔ ∀ r ∈ rs, r.ok = true := by
  induction rs generalizing i with
  | nil => simp [checkLinkResponses]
  | cons r rest ih =>
    obtain ⟨p, hp⟩ := hpath i (Nat.le_refl i) (by simp)
    have hrest : ∀ j, i + 1 ≤ j → j < i + 1 + rest.length → ∃ p, pathAt j = .ok p := by
      intro j h1 h2
      exact hpath j (by omega) (by simp only [List.length_cons]; omega)
    cases hr : r.ok with
    | false => simp [checkLinkResponses, hp, checkHttpResponse, hr]
    | true => simp [checkLinkResponses, hp, checkHttpResponse, hr, ih (i + 1) hrest]

theorem checkLinkResponses_first_failure (pathAt : Nat → Except Thrown String)
    (pre post : List (Response Unit)) (r : Response Unit) (i : Nat) (p : String)
    (hpath : ∀ j, i ≤ j → j < i + pre.length → ∃ q, pathAt j = .ok q)
    (hp : pathAt (i + pre.length) = .ok p)
    (hpre : ∀ q ∈ pre, q.ok = true) (hr : r.ok = false) :
    checkLinkResponses pathAt (pre ++ r :: post) i =
      .error (.httpError ("failed to create links for path '" ++ p ++ "'") r.status) := by
  induction pre generalizing i with
  | nil =>
    simp only [List.length_nil, Nat.add_zero] at hp
    simp [checkLinkResponses, hp, checkHttpResponse, hr]
  | cons q rest ih =>
    obtain ⟨p0, hp0⟩ := hpath i (Nat.le_refl i) (by simp)
    have hq := hpre q (List.mem_cons_self _ _)
    simp only [List.cons_append, checkLinkResponses, hp0, checkHttpResponse, hq, if_true]
    refine ih (i + 1) ?_ ?_ (fun z hz => hpre z (List.mem_cons_of_mem _ hz))
    · intro j h1 h2
      exact hpath j (by omega) (by simp only [List.length_cons]; omega)
    · rw [← hp]
      congr 1
      simp only [List.length_cons]
      omega

theorem linkPathArray_ok (xs : List LinkEntry) (j : Nat) (hj : j < xs.length) :
    linkPathArray xs j = .ok xs[j].filename := by
  simp [linkPathArray, List.getElem?_eq_getElem hj]

theorem linkPathMap_ok (o : JsObject String) (j : Nat) : ∃ p, linkPathMap o j = .ok p := by
  unfold linkPathMap
  cases o.get? (toString j) with
  | none => exact ⟨_, rfl⟩
  | some v => exact ⟨_, rfl⟩

theorem presignedLoops_calls_agree (contents : Contents)
    (presignedPutFun : PresignedPutFun) (ps : List PresignedEntry)
    (calls : List Call) (promises promises2 : List (Response Unit)) :
    (presignedMapLoop contents presignedPutFun (ps.map (fun p => (p.filename, p.url)))
        (calls.map Call.withoutChecksum) promises2).1 =
      (presignedArrayLoop contents presignedPutFun ps calls promises).1.map
        Call.withoutChecksum := by
  induction ps generalizing calls promises promises2 with
  | nil => rfl
  | cons x rest ih =>
    simp only [List.map_cons, presignedMapLoop, presignedArrayLoop]
    cases contents.lookup x.filename with
    | none => rfl
    | some value =>
      have := ih (calls ++ [.presignedPut x.filename x.url (some x.md5sum) value])
        (promises ++ [presignedPutFun promises.length x.filename x.url (some x.md5sum) value])
        (promises2 ++ [presignedPutFun promises2.length x.filename x.url none value])
      simpa [Call.withoutChecksum] using this

theorem contentPhase_calls_array (xs : List PresignedEntry) (contents : Contents)
    (presignedPutFun : PresignedPutFun) :
    (contentPhase (.array xs) contents presignedPutFun).1 =
      (presignedArrayLoop contents presignedPutFun xs [] []).1 := by
  simp only [contentPhase]
  split <;> simp_all

theorem contentPhase_calls_map (o : JsObject String) (contents : Contents)
    (presignedPutFun : PresignedPutFun) :
    (contentPhase (.map o) contents presignedPutFun).1 =
      (presignedMapLoop contents presignedPutFun o.entries [] []).1 := by
  simp only [contentPhase]
  split <;> simp_all

theorem map_withoutChecksum_put (urls : List String) :
    (urls.map Call.put).map Call.withoutChecksum = urls.map Call.put := by
  induction urls with
  | nil => rfl
  | cons u rest ih => simp [Call.withoutChecksum]

/-- For an array-shaped `links`: every link request is issued, and if the response at index
`pre.length` is the first that is not ok, the HTTP error thrown carries the context that
names the path of that entry; the content phase is not entered. -/
theorem uploadFiles_array_link_failure_names_path (baseUrl : String) (initial : UploadSession)
    (contents : Contents) (putFun : PutFun) (presignedPutFun : PresignedPutFun)
    (xs : List LinkEntry) (pre post : List (Response Unit)) (r : Response Unit)
    (hshape : initial.links = .array xs)
    (hresp : issueLinkPuts putFun (xs.map (fun x => baseUrl ++ x.url)) 0 = pre ++ r :: post)
    (hpre : ∀ q ∈ pre, q.ok = true) (hr : r.ok = false) :
    ∃ x, xs[pre.length]? = some x ∧
      uploadFiles baseUrl initial contents putFun presignedPutFun =
        { calls := (xs.map (fun x => baseUrl ++ x.url)).map Call.put,
          result := .error (.httpError
            ("failed to create links for path '" ++ x.filename ++ "'") r.status) } := by
  have hlen : pre.length < xs.length := by
    have h1 := congrArg List.length hresp
    rw [issueLinkPuts_length] at h1
    simp only [List.length_map, List.length_append, List.length_cons] at h1
    omega
  refine ⟨xs[pre.length], List.getElem?_eq_getElem hlen, ?_⟩
  have hcheck := checkLinkResponses_first_failure (linkPathArray xs) pre post r 0
    xs[pre.length].filename
    (fun j _ hj => ⟨_, linkPathArray_ok xs j (by omega)⟩)
    (by rw [Nat.zero_add]; exact linkPathArray_ok xs pre.length hlen) hpre hr
  simp only [uploadFiles, linkPhase, hshape, hresp, hcheck]

/-- A path that names an inherited property passes the test `path in contents`: for the
presigned path `"constructor"` and the empty object literal as `contents`, which has no key
at all, `uploadFiles` does not throw; it hands the inherited value to `presignedPutFun` and
returns. -/
theorem uploadFiles_inherited_name_passes_test :
    "constructor" ∈ presignedPaths inheritedNameSession.presigned_urls ∧
    "constructor" ∉ (plainObject JsObject.empty).own.keys ∧
    "constructor" ∈ (plainObject JsObject.empty).properties ∧
    (uploadFiles "http://h" inheritedNameSession (plainObject JsObject.empty)
        acceptingPut acceptingPresignedPut).calls =
      [.presignedPut "constructor" "http://s3/c" (some "m0") "[function Object]"] ∧
    (uploadFiles "http://h" inheritedNameSession (plainObject JsObject.empty)
        acceptingPut acceptingPresignedPut).result = .ok () :=
  ⟨by decide, by decide, by decide, rfl, rfl⟩

/-! ## Facts about `completeUpload` -/

theorem pollLoop_pending_step (clock : Nat → Int) (getFun : Nat → String → Response JobState)
    (baseUrl job_str : String) (start indexWait : Int) (fuel : Nat) (s : PollState)
    (hclock : clock s.clockReads - start < indexWait * 1000)
    (hpending : reportsPending (getFun s.gets.length (baseUrl ++ "/jobs/" ++ job_str)) = true) :
    pollLoop clock getFun baseUrl job_str start indexWait (fuel + 1) s =
      pollLoop clock getFun baseUrl job_str start indexWait fuel
        { clockReads := s.clockReads + 1, gets := s.gets ++ [baseUrl ++ "/jobs/" ++ job_str] } := by
  unfold reportsPending at hpending
  rw [pollLoop]
  simp only [hclock, if_true]
  cases hj : (getFun s.gets.length (baseUrl ++ "/jobs/" ++ job_str)).json with
  | error e => simp [hj] at hpending
  | ok state =>
    simp only [hj, Bool.and_eq_true, bne_iff_ne, ne_eq] at hpending
    simp [hpending.1, hpending.2]

theorem pollLoop_success_step (clock : Nat → Int) (getFun : Nat → String → Response JobState)
    (baseUrl job_str : String) (start indexWait : Int) (fuel : Nat) (s : PollState)
    (hclock : clock s.clockReads - start < indexWait * 1000)
    (hsuccess : reports (getFun s.gets.length (baseUrl ++ "/jobs/" ++ job_str)) "SUCCESS"
      = true) :
    pollLoop clock getFun baseUrl job_str start indexWait (fuel + 1) s =
      some ({ clockReads := s.clockReads + 1,
              gets := s.gets ++ [baseUrl ++ "/jobs/" ++ job_str] }, .ok true) := by
  unfold reports at hsuccess
  rw [pollLoop]
  simp only [hclock, if_true]
  cases hj : (getFun s.gets.length (baseUrl ++ "/jobs/" ++ job_str)).json with
  | error e => simp [hj] at hsuccess
  | ok state =>
    simp only [hj, beq_iff_eq] at hsuccess
    simp [hsuccess]

theorem pollLoop_failure_step (clock : Nat → Int) (getFun : Nat → String → Response JobState)
    (baseUrl job_str : String) (start indexWait : Int) (fuel : Nat) (s : PollState)
    (hclock : clock s.clockReads - start < indexWait * 1000)
    (hfailure : reports (getFun s.gets.length (baseUrl ++ "/jobs/" ++ job_str)) "FAILURE"
      = true) :
    pollLoop clock getFun baseUrl job_str start indexWait (fuel + 1) s =
      some ({ clockReads := s.clockReads + 1,
              gets := s.gets ++ [baseUrl ++ "/jobs/" ++ job_str] },
        .error (.error ("indexing failure on job " ++ job_str ++ ", see " ++
          (baseUrl ++ "/jobs/" ++ job_str) ++ " for more details"))) := by
  unfold reports at hfailure
  rw [pollLoop]
  simp only [hclock, if_true]
  cases hj : (getFun s.gets.length (baseUrl ++ "/jobs/" ++ job_str)).json with
  | error e => simp [hj] at hfailure
  | ok state =>
    simp only [hj, beq_iff_eq] at hfailure
    simp [hfailure]

theorem pollLoop_timeout_step (clock : Nat → Int) (getFun : Nat → String → Response JobState)
    (baseUrl job_str : String) (start indexWait : Int) (fuel : Nat) (s : PollState)
    (hclock : indexWait * 1000 ≤ clock s.clockReads - start) :
    pollLoop clock getFun baseUrl job_str start indexWait (fuel + 1) s =
      some ({ clockReads := s.clockReads + 1, gets := s.gets }, .ok false) := by
  rw [pollLoop]
  simp only [not_lt.mpr hclock, if_false]

theorem pollLoop_pending_steps (clock : Nat → Int) (getFun : Nat → String → Response JobState)
    (baseUrl job_str : String) (start indexWait : Int) (n fuel : Nat) (s : PollState)
    (hclock : ∀ j, j < n → clock (s.clockReads + j) - start < indexWait * 1000)
    (hpending : ∀ j, j < n →
      reportsPending (getFun (s.gets.length + j) (baseUrl ++ "/jobs/" ++ job_str)) = true) :
    pollLoop clock getFun baseUrl job_str start indexWait (n + fuel) s =
      pollLoop clock getFun baseUrl job_str start indexWait fuel
        { clockReads := s.clockReads + n,
          gets := s.gets ++ List.replicate n (baseUrl ++ "/jobs/" ++ job_str) } := by
  induction n generalizing s with
  | zero => simp
  | succ n ih =>
    have h0 := hclock 0 (Nat.succ_pos n)
    have p0 := hpending 0 (Nat.succ_pos n)
    simp only [Nat.add_zero] at h0 p0
    rw [show n + 1 + fuel = (n + fuel) + 1 by omega,
      pollLoop_pending_step clock getFun baseUrl job_str start indexWait (n + fuel) s h0 p0,
      ih]
    · simp only [List.replicate_succ, List.append_assoc, List.singleton_append]
      rw [show s.clockReads + 1 + n = s.clockReads + (n + 1) by omega]
    · intro j hj
      have := hclock (j + 1) (by omega)
      simpa [Nat.add_assoc, Nat.add_comm 1 j] using this
    · intro j hj
      have := hpending (j + 1) (by omega)
      simpa [Nat.add_assoc, Nat.add_comm 1 j] using this

theorem completeUpload_of_poll (baseUrl : String) (initial : UploadSession)
    (opts : CompleteOptions) (putFun : String → Permissions → Response JobInfo)
    (getFun : Nat → String → Response JobState) (clock : Nat → Int) (fuel : Nat)
    (job_info : JobInfo) (s : PollState) (r : Except Thrown Bool)
    (hok : (putFun (completionUrl baseUrl initial) (buildPermissions opts)).ok = true)
    (hjson : (putFun (completionUrl baseUrl initial) (buildPermissions opts)).json =
      .ok job_info)
    (hpoll : pollLoop clock getFun baseUrl job_info.job_id.toJsString (clock 0)
      opts.indexWait fuel { clockReads := 1, gets := [] } = some (s, r)) :
    completeUpload baseUrl initial opts putFun getFun clock fuel =
      some { puts := [(completionUrl baseUrl initial, buildPermissions opts)],
             gets := s.gets, clockReads := s.clockReads,
             result := r.map (fun okay => { indexed := okay, job_id := job_info.job_id }) } := by
  simp only [completeUpload, checkHttpResponse, hok, if_true, hjson, hpoll]
  cases r <;> rfl

theorem pollLoop_pending_then (clock : Nat → Int) (getFun : Nat → String → Response JobState)
    (baseUrl job_str : String) (indexWait : Int) (m extra : Nat)
    (hclock : ∀ k, k < m → clock (k + 1) - clock 0 < indexWait * 1000)
    (hpending : ∀ k, k < m →
      reportsPending (getFun k (baseUrl ++ "/jobs/" ++ job_str)) = true) :
    pollLoop clock getFun baseUrl job_str (clock 0) indexWait (m + extra)
        { clockReads := 1, gets := [] } =
      pollLoop clock getFun baseUrl job_str (clock 0) indexWait extra
        { clockReads := m + 1, gets := List.replicate m (baseUrl ++ "/jobs/" ++ job_str) } := by
  rw [pollLoop_pending_steps clock getFun baseUrl job_str (clock 0) indexWait m extra
    { clockReads := 1, gets := [] }]
  · simp [Nat.add_comm]
  · intro j hj
    have := hclock j hj
    simpa [Nat.add_comm] using this
  · intro j hj
    simpa using hpending j hj

/-! ## Claims about `initializeUpload` -/

/-- C1: if some path is a key of more than one of `checksums`, `dedupMd5Paths` and
`dedupLinkPaths`, then `initializeUpload` throws an `Error` and `postFun` is never
called. -/
theorem initializeUpload_overlap_throws {S : Type} (startUrl : String)
    (checksums : JsObject String) (opts : InitOptions)
    (postFun : String → UploadRequest → Response S)
    (h : ∃ k, (k ∈ checksums.keys ∧ k ∈ opts.dedupMd5Paths.keys) ∨
      (k ∈ checksums.keys ∧ k ∈ opts.dedupLinkPaths.keys) ∨
      (k ∈ opts.dedupMd5Paths.keys ∧ k ∈ opts.dedupLinkPaths.keys)) :
    (∃ msg, (initializeUpload startUrl checksums opts postFun).result = .error (.error msg)) ∧
      (initializeUpload startUrl checksums opts postFun).posts = [] := by
  have hbuild : ∃ msg, buildFilenames checksums opts = .error (.error msg) := by
    apply buildFilenames_error
    obtain ⟨k, hk⟩ := h
    rcases hk with ⟨hc, hm⟩ | ⟨hc, hl⟩ | ⟨hm, hl⟩
    · exact Or.inl ⟨k, hm, Or.inl hc⟩
    · exact Or.inr ⟨k, hl, Or.inl (Or.inl hc)⟩
    · exact Or.inr ⟨k, hl, Or.inl (Or.inr hm)⟩
  obtain ⟨msg, hmsg⟩ := hbuild
  rw [initializeUpload_of_build_error startUrl checksums opts postFun _ hmsg]
  exact ⟨⟨msg, rfl⟩, rfl⟩

/-- Witness for C1: `"a.txt"` is a key of `dedupMd5Paths` and of `dedupLinkPaths`. -/
theorem initializeUpload_overlap_throws_witness :
    (∃ msg, (initializeUpload "http://h/upload" (JsObject.empty : JsObject String)
        { dedupMd5Paths := ⟨[("a.txt", "m")], by simp⟩,
          dedupLinkPaths := ⟨[("a.txt", "id")], by simp⟩ }
        acceptingPost).result = .error (.error msg)) ∧
      (initializeUpload "http://h/upload" (JsObject.empty : JsObject String)
        { dedupMd5Paths := ⟨[("a.txt", "m")], by simp⟩,
          dedupLinkPaths := ⟨[("a.txt", "id")], by simp⟩ }
        acceptingPost).posts = [] :=
  initializeUpload_overlap_throws "http://h/upload" JsObject.empty
    { dedupMd5Paths := ⟨[("a.txt", "m")], by simp⟩,
      dedupLinkPaths := ⟨[("a.txt", "id")], by simp⟩ }
    acceptingPost ⟨"a.txt", Or.inr (Or.inr ⟨by simp [JsObject.keys], by simp [JsObject.keys]⟩)⟩

/-- C2: if a key of `dedupMd5Paths` or of `dedupLinkPaths` ends with `".json"`, then
`initializeUpload` throws an `Error` and `postFun` is never called. -/
theorem initializeUpload_json_dedup_throws {S : Type} (startUrl : String)
    (checksums : JsObject String) (opts : InitOptions)
    (postFun : String → UploadRequest → Response S)
    (h : (∃ k ∈ opts.dedupMd5Paths.keys, endsWith k ".json" = true) ∨
      (∃ k ∈ opts.dedupLinkPaths.keys, endsWith k ".json" = true)) :
    (∃ msg, (initializeUpload startUrl checksums opts postFun).result = .error (.error msg)) ∧
      (initializeUpload startUrl checksums opts postFun).posts = [] := by
  have hbuild : ∃ msg, buildFilenames checksums opts = .error (.error msg) := by
    apply buildFilenames_error
    rcases h with ⟨k, hk, hj⟩ | ⟨k, hk, hj⟩
    · exact Or.inl ⟨k, hk, Or.inr hj⟩
    · exact Or.inr ⟨k, hk, Or.inr hj⟩
  obtain ⟨msg, hmsg⟩ := hbuild
  rw [initializeUpload_of_build_error startUrl checksums opts postFun _ hmsg]
  exact ⟨⟨msg, rfl⟩, rfl⟩

/-- Witness for C2: `dedupLinkPaths` has the key `"meta.json"`. -/
theorem initializeUpload_json_dedup_throws_witness :
    (∃ msg, (initializeUpload "http://h/upload" (⟨[("a.txt", "c")], by simp⟩ : JsObject String)
        { dedupLinkPaths := ⟨[("meta.json", "id")], by simp⟩ }
        acceptingPost).result = .error (.error msg)) ∧
      (initializeUpload "http://h/upload" (⟨[("a.txt", "c")], by simp⟩ : JsObject String)
        { dedupLinkPaths := ⟨[("meta.json", "id")], by simp⟩ }
        acceptingPost).posts = [] :=
  initializeUpload_json_dedup_throws "http://h/upload" ⟨[("a.txt", "c")], by simp⟩
    { dedupLinkPaths := ⟨[("meta.json", "id")], by simp⟩ }
    acceptingPost (Or.inr ⟨"meta.json", by simp [JsObject.keys], by decide⟩)

/-- C3: when the key sets of `checksums`, `dedupMd5Paths` and `dedupLinkPaths` are pairwise
disjoint and no key of the two dedup maps ends with `".json"`, the request construction does
not throw, `postFun` is called once, and the `filenames` of the body it receives has
`len(checksums) + len(dedupMd5Paths) + len(dedupLinkPaths)` elements. -/
theorem initializeUpload_construction_counts {S : Type} (startUrl : String)
    (checksums : JsObject String) (opts : InitOptions)
    (postFun : String → UploadRequest → Response S)
    (hcm : ∀ k ∈ checksums.keys, k ∉ opts.dedupMd5Paths.keys)
    (hcl : ∀ k ∈ checksums.keys, k ∉ opts.dedupLinkPaths.keys)
    (hml : ∀ k ∈ opts.dedupMd5Paths.keys, k ∉ opts.dedupLinkPaths.keys)
    (hmj : ∀ k ∈ opts.dedupMd5Paths.keys, endsWith k ".json" = false)
    (hlj : ∀ k ∈ opts.dedupLinkPaths.keys, endsWith k ".json" = false) :
    ∃ filenames req,
      buildFilenames checksums opts = .ok filenames ∧
      (initializeUpload startUrl checksums opts postFun).posts = [(startUrl, req)] ∧
      req.filenames = filenames ∧
      filenames.length = checksums.entries.length + opts.dedupMd5Paths.entries.length +
        opts.dedupLinkPaths.entries.length := by
  have hok := buildFilenames_ok checksums opts hcm hcl hml hmj hlj
  refine ⟨_, _, hok, initializeUpload_posts_of_build_ok startUrl checksums opts postFun _ hok,
    buildRequest_filenames _ _, ?_⟩
  simp only [List.length_append, List.length_map]

/-- Witness for C3: one fresh file, one MD5-deduplicated file and one linked file. -/
theorem initializeUpload_construction_counts_witness :
    ∃ filenames req,
      buildFilenames (⟨[("a.txt", "c")], by simp⟩ : JsObject String)
        { dedupMd5Paths := ⟨[("b.bin", "m")], by simp⟩,
          dedupLinkPaths := ⟨[("c.bin", "id")], by simp⟩ } = .ok filenames ∧
      (initializeUpload "http://h/upload" (⟨[("a.txt", "c")], by simp⟩ : JsObject String)
        { dedupMd5Paths := ⟨[("b.bin", "m")], by simp⟩,
          dedupLinkPaths := ⟨[("c.bin", "id")], by simp⟩ }
        acceptingPost).posts = [("http://h/upload", req)] ∧
      req.filenames = filenames ∧
      filenames.length = 1 + 1 + 1 :=
  initializeUpload_construction_counts "http://h/upload" ⟨[("a.txt", "c")], by simp⟩
    { dedupMd5Paths := ⟨[("b.bin", "m")], by simp⟩,
      dedupLinkPaths := ⟨[("c.bin", "id")], by simp⟩ }
    acceptingPost
    (by simp [JsObject.keys]) (by simp [JsObject.keys]) (by simp [JsObject.keys])
    (by simp [JsObject.keys]; decide) (by simp [JsObject.keys]; decide)

/-- C4: when `apiVersion` is not 1, the descriptor that `initializeUpload` hands to
`postFun` for the `i`-th entry `(k, v)` of `checksums` is
`{filename: k, check: "md5", value: {md5sum: v, field: md5Field}}` if `autoDedupMd5` is true
and `k` does not end with `".json"`, and `{filename: k, check: "simple", value: {md5sum: v}}`
otherwise. With default options, `checksums = {"a.txt": "chk1"}` is posted as the single
descriptor `{filename: "a.txt", check: "md5", value: {md5sum: "chk1", field: "md5sum"}}`. -/
theorem initializeUpload_checksum_descriptor {S : Type} (startUrl : String)
    (checksums : JsObject String) (opts : InitOptions)
    (postFun : String → UploadRequest → Response S) :
    (opts.apiVersion ≠ 1 →
      ∀ (url : String) (req : UploadRequest),
        (url, req) ∈ (initializeUpload startUrl checksums opts postFun).posts →
        ∀ (i : Nat) (k v : String), checksums.entries[i]? = some (k, v) →
          (opts.autoDedupMd5 = true ∧ endsWith k ".json" = false →
            req.filenames[i]? = some (.descriptor k "md5"
              { md5sum := some v, field := some opts.md5Field, artifactdb_id := none })) ∧
          (opts.autoDedupMd5 = false ∨ endsWith k ".json" = true →
            req.filenames[i]? = some (.descriptor k "simple"
              { md5sum := some v, field := none, artifactdb_id := none }))) ∧
    ((initializeUpload startUrl ⟨[("a.txt", "chk1")], by simp⟩ {} postFun).posts.map
        (fun p => p.2.filenames) =
      [[.descriptor "a.txt" "md5"
          { md5sum := some "chk1", field := some "md5sum", artifactdb_id := none }]]) := by
  refine ⟨?_, ?_⟩
  · intro hv url req hreq i k v hi
    obtain ⟨fs, hfs, hreq2, _⟩ :=
      initializeUpload_posts_mem startUrl checksums opts postFun url req hreq
    have hfs2 := buildFilenames_ok_inv checksums opts fs hfs
    have hlt : i < checksums.entries.length := by
      by_contra hge
      rw [List.getElem?_eq_none (Nat.le_of_not_lt hge)] at hi
      exact absurd hi (by simp)
    have hget : req.filenames[i]? =
        some (checksumPayload opts.apiVersion opts.autoDedupMd5 opts.md5Field k v) := by
      rw [hreq2, buildRequest_filenames, hfs2, List.append_assoc,
        List.getElem?_append_left (by simpa using hlt), List.getElem?_map, hi]
      rfl
    refine ⟨fun h => ?_, fun h => ?_⟩
    · rw [hget, checksumPayload_md5 _ _ _ _ _ hv h.1 h.2]
    · rw [hget, checksumPayload_simple _ _ _ _ _ hv h]
  · have hb : buildFilenames ⟨[("a.txt", "chk1")], by simp⟩ {} =
        .ok [.descriptor "a.txt" "md5"
          { md5sum := some "chk1", field := some "md5sum", artifactdb_id := none }] := by
      rfl
    rw [initializeUpload_posts_of_build_ok startUrl _ _ postFun _ hb]
    rfl

/-- Witness for C4: with `autoDedupMd5` on, `"a.txt"` gets an `md5` check and `"m.json"`,
the second entry, a `simple` one. -/
theorem initializeUpload_checksum_descriptor_witness :
    ∃ req, (initializeUpload "http://h/upload"
        (⟨[("a.txt", "c1"), ("m.json", "c2")], by decide⟩ : JsObject String) {}
        acceptingPost).posts = [("http://h/upload", req)] ∧
      req.filenames[0]? = some (.descriptor "a.txt" "md5"
        { md5sum := some "c1", field := some "md5sum", artifactdb_id := none }) ∧
      req.filenames[1]? = some (.descriptor "m.json" "simple"
        { md5sum := some "c2", field := none, artifactdb_id := none }) :=
  ⟨buildRequest [.descriptor "a.txt" "md5"
        { md5sum := some "c1", field := some "md5sum", artifactdb_id := none },
      .descriptor "m.json" "simple"
        { md5sum := some "c2", field := none, artifactdb_id := none }] none,
    by decide,
    ((initializeUpload_checksum_descriptor "http://h/upload"
        ⟨[("a.txt", "c1"), ("m.json", "c2")], by decide⟩ {} acceptingPost).1 (by decide)
        "http://h/upload" _ (by decide) 0 "a.txt" "c1" rfl).1 ⟨rfl, by decide⟩,
    ((initializeUpload_checksum_descriptor "http://h/upload"
        ⟨[("a.txt", "c1"), ("m.json", "c2")], by decide⟩ {} acceptingPost).1 (by decide)
        "http://h/upload" _ (by decide) 1 "m.json" "c2" rfl).2 (Or.inr (by decide))⟩

theorem buildRequest_mode (fs : List Payload) (expires : Option Nat) :
    (buildRequest fs expires).mode = "s3-presigned-url" := by
  cases expires <;> rfl

/-- C13 (counterexample): for `checksums = {"a.txt": "chk1"}` and default options the
request construction succeeds, and the body passed to `postFun` has the mode
`"s3-presigned-url"`, not `"presigned-transfer"`. -/
theorem initializeUpload_mode_differs_from_spec :
    buildFilenames ⟨[("a.txt", "chk1")], by simp⟩ {} =
      .ok [.descriptor "a.txt" "md5"
        { md5sum := some "chk1", field := some "md5sum", artifactdb_id := none }] ∧
    (initializeUpload "http://h/upload" ⟨[("a.txt", "chk1")], by simp⟩ {}
        acceptingPost).posts.map (fun p => p.2.mode) = ["s3-presigned-url"] ∧
    (initializeUpload "http://h/upload" ⟨[("a.txt", "chk1")], by simp⟩ {}
        acceptingPost).posts.map (fun p => p.2.mode) ≠ ["presigned-transfer"] :=
  ⟨rfl, rfl, by decide⟩

/-- C13 (amended): whenever the request construction succeeds with the descriptor list
`filenames`, `postFun` is called once, with a body whose `filenames` field is that list and
whose `mode` field is the string `"s3-presigned-url"`. -/
theorem initializeUpload_request_body {S : Type} (startUrl : String)
    (checksums : JsObject String) (opts : InitOptions)
    (postFun : String → UploadRequest → Response S) (filenames : List Payload)
    (h : buildFilenames checksums opts = .ok filenames) :
    ∃ req, (initializeUpload startUrl checksums opts postFun).posts = [(startUrl, req)] ∧
      req.filenames = filenames ∧ req.mode = "s3-presigned-url" :=
  ⟨buildRequest filenames opts.expires,
    initializeUpload_posts_of_build_ok startUrl checksums opts postFun filenames h,
    buildRequest_filenames _ _, buildRequest_mode _ _⟩

/-- Witness for C13 (amended): one fresh file and an expiry of 3 days. -/
theorem initializeUpload_request_body_witness :
    buildFilenames ⟨[("a.txt", "chk1")], by simp⟩ { expires := some 3 } =
      .ok [.descriptor "a.txt" "md5"
        { md5sum := some "chk1", field := some "md5sum", artifactdb_id := none }] ∧
    ∃ req, (initializeUpload "http://h/upload" ⟨[("a.txt", "chk1")], by simp⟩
        { expires := some 3 } acceptingPost).posts = [("http://h/upload", req)] ∧
      req.filenames = [.descriptor "a.txt" "md5"
        { md5sum := some "chk1", field := some "md5sum", artifactdb_id := none }] ∧
      req.mode = "s3-presigned-url" :=
  ⟨rfl, initializeUpload_request_body "http://h/upload" ⟨[("a.txt", "chk1")], by simp⟩
    { expires := some 3 } acceptingPost _ rfl⟩

/-! ## Claims about `uploadFiles` -/

/-- C5 (the code at the failing input): for a dictionary-shaped `presigned_urls` with the
single entry `"a.txt"` whose PUT is answered 403, `uploadFiles` calls `presignedPutFun`
once and then throws the `TypeError` of reading `.filename` of `undefined`, not an `Error`
whose message names `"a.txt"`. -/
theorem uploadFiles_legacy_failure_loses_path :
    (uploadFiles "http://h" legacySession (plainObject ⟨[("a.txt", "hello")], by simp⟩)
        acceptingPut rejectingPresignedPut).calls =
      [.presignedPut "a.txt" "http://s3/a" none "hello"] ∧
    (uploadFiles "http://h" legacySession (plainObject ⟨[("a.txt", "hello")], by simp⟩)
        acceptingPut rejectingPresignedPut).result = .error (.typeError "filename") :=
  ⟨rfl, rfl⟩

/-- C6 (counterexample): `"b.txt"` is a presigned path that is not a key of `contents`, and
`uploadFiles` throws only after it has issued the link request through `putFun` and the
upload of `"a.txt"` through `presignedPutFun`. -/
theorem uploadFiles_reaches_network_before_throwing :
    "b.txt" ∈ presignedPaths arraySession.presigned_urls ∧
    "b.txt" ∉ (⟨[("a.txt", "hello")], by simp⟩ : JsObject String).keys ∧
    (uploadFiles "http://h" arraySession (plainObject ⟨[("a.txt", "hello")], by simp⟩)
        acceptingPut rejectingPresignedPut).calls =
      [.put "http://h/link/l", .presignedPut "a.txt" "http://s3/a" (some "m1") "hello"] ∧
    (uploadFiles "http://h" arraySession (plainObject ⟨[("a.txt", "hello")], by simp⟩)
        acceptingPut rejectingPresignedPut).calls ≠ [] ∧
    (uploadFiles "http://h" arraySession (plainObject ⟨[("a.txt", "hello")], by simp⟩)
        acceptingPut rejectingPresignedPut).result =
      .error (.error "failed to find path 'b.txt' in contents") :=
  ⟨by decide, by decide, rfl, by decide, rfl⟩

/-- C6 (amended): if for some presigned path the test `path in contents` is false (the path
is neither an own key of `contents` nor a property that it inherits), `uploadFiles` throws,
after having issued every link request through `putFun`. Either the link phase passes its
checks, and then the error is the validation error naming the first such path and
`presignedPutFun` has been called exactly for the entries before that one; or the link
phase throws, and then that error is the one thrown and `presignedPutFun` is not called. -/
theorem uploadFiles_missing_content (baseUrl : String) (initial : UploadSession)
    (contents : Contents) (putFun : PutFun) (presignedPutFun : PresignedPutFun)
    (h : ∃ p ∈ presignedPaths initial.presigned_urls, p ∉ contents.properties) :
    (∃ e, (uploadFiles baseUrl initial contents putFun presignedPutFun).result = .error e) ∧
    (linkUrls baseUrl initial.links).map Call.put <+:
      (uploadFiles baseUrl initial contents putFun presignedPutFun).calls ∧
    (((linkPhase baseUrl initial.links putFun).2 = .ok () ∧
      ∃ pre x post, presignedItems initial.presigned_urls = pre ++ x :: post ∧
        (∀ y ∈ pre, y.1 ∈ contents.properties) ∧ x.1 ∉ contents.properties ∧
        (uploadFiles baseUrl initial contents putFun presignedPutFun).result =
          .error (.error ("failed to find path '" ++ x.1 ++ "' in contents")) ∧
        (uploadFiles baseUrl initial contents putFun presignedPutFun).calls =
          (linkUrls baseUrl initial.links).map Call.put ++
            pre.map (presignedCallOf contents)) ∨
     ((∃ e, (linkPhase baseUrl initial.links putFun).2 = .error e ∧
        (uploadFiles baseUrl initial contents putFun presignedPutFun).result = .error e) ∧
      (uploadFiles baseUrl initial contents putFun presignedPutFun).calls =
        (linkUrls baseUrl initial.links).map Call.put)) := by
  have hitem : ∃ t ∈ presignedItems initial.presigned_urls, t.1 ∉ contents.properties := by
    obtain ⟨p, hp, hmiss⟩ := h
    obtain ⟨t, ht, rfl⟩ := List.mem_map.mp hp
    exact ⟨t, ht, hmiss⟩
  obtain ⟨pre, x, post, hsplit, hpre, hx⟩ :=
    exists_first_missing (fun t => t.1 ∉ contents.properties) _ hitem
  have hpre2 : ∀ y ∈ pre, y.1 ∈ contents.properties := fun y hy => not_not.mp (hpre y hy)
  have hcontent := contentPhase_missing initial.presigned_urls contents presignedPutFun
    pre post x hsplit hpre2 hx
  have hcalls := linkPhase_calls baseUrl initial.links putFun
  cases hl : linkPhase baseUrl initial.links putFun with
  | mk calls r =>
    rw [hl] at hcalls
    simp only at hcalls
    cases r with
    | error e =>
      have hrun : uploadFiles baseUrl initial contents putFun presignedPutFun =
          { calls := calls, result := .error e } := by
        simp only [uploadFiles, hl]
      rw [hrun]
      refine ⟨⟨e, rfl⟩, ?_, Or.inr ⟨⟨e, rfl, rfl⟩, hcalls⟩⟩
      rw [hcalls]
    | ok u =>
      have hrun : uploadFiles baseUrl initial contents putFun presignedPutFun =
          { calls := calls ++ pre.map (presignedCallOf contents),
            result := .error (.error ("failed to find path '" ++ x.1 ++ "' in contents")) } := by
        simp only [uploadFiles, hl, hcontent]
      rw [hrun]
      refine ⟨⟨_, rfl⟩, ?_, Or.inl ⟨rfl, pre, x, post, hsplit, hpre2, hx, rfl, by rw [hcalls]⟩⟩
      rw [hcalls]
      exact List.prefix_append _ _

/-- Witness for C6 (amended): the session of the counterexample, where `"b.txt"` is
neither an own nor an inherited property of `contents`. -/
theorem uploadFiles_missing_content_witness :
    (∃ p ∈ presignedPaths arraySession.presigned_urls,
        p ∉ (plainObject ⟨[("a.txt", "hello")], by simp⟩).properties) ∧
    (∃ e, (uploadFiles "http://h" arraySession (plainObject ⟨[("a.txt", "hello")], by simp⟩)
        acceptingPut rejectingPresignedPut).result = .error e) ∧
    (linkUrls "http://h" arraySession.links).map Call.put <+:
      (uploadFiles "http://h" arraySession (plainObject ⟨[("a.txt", "hello")], by simp⟩)
        acceptingPut rejectingPresignedPut).calls :=
  ⟨⟨"b.txt", by decide, by decide⟩,
    (uploadFiles_missing_content "http://h" arraySession
      (plainObject ⟨[("a.txt", "hello")], by simp⟩)
      acceptingPut rejectingPresignedPut ⟨"b.txt", by decide, by decide⟩).1,
    (uploadFiles_missing_content "http://h" arraySession
      (plainObject ⟨[("a.txt", "hello")], by simp⟩)
      acceptingPut rejectingPresignedPut ⟨"b.txt", by decide, by decide⟩).2.1⟩

/-- C11: let a session be given in array form (`links` a list of `{filename, url}`,
`presigned_urls` a list of `{filename, url, md5sum}`) and in map form with the same entries
in the same order (`links`: path to `baseUrl + url`; `presigned_urls`: path to `url`). With
the same `baseUrl`, `contents` and transports, `uploadFiles` issues the same requests for
both: the log of the map form is the log of the array form with every checksum replaced by
`null`, so the link URLs and the `(path, url, content)` of the presigned PUTs coincide, in
order. -/
theorem uploadFiles_array_map_same_requests (baseUrl : String) (xs : List LinkEntry)
    (ps : List PresignedEntry) (links presigned : JsObject String)
    (completion abort completion2 abort2 : String) (contents : Contents)
    (putFun : PutFun) (presignedPutFun : PresignedPutFun)
    (hlinks : links.entries = xs.map (fun x => (x.filename, baseUrl ++ x.url)))
    (hpresigned : presigned.entries = ps.map (fun p => (p.filename, p.url))) :
    (uploadFiles baseUrl
        { links := .map links, presigned_urls := .map presigned,
          completion_url := completion2, abort_url := abort2 }
        contents putFun presignedPutFun).calls =
      (uploadFiles baseUrl
        { links := .array xs, presigned_urls := .array ps,
          completion_url := completion, abort_url := abort }
        contents putFun presignedPutFun).calls.map Call.withoutChecksum := by
  have hvals : links.values = xs.map (fun x => baseUrl ++ x.url) := by
    simp [JsObject.values, hlinks, List.map_map, Function.comp_def]
  have hA := checkLinkResponses_eq_ok_iff (linkPathArray xs)
    (issueLinkPuts putFun (xs.map (fun x => baseUrl ++ x.url)) 0) 0
    (fun j _ hj => ⟨_, linkPathArray_ok xs j
      (by simpa [issueLinkPuts_length] using hj)⟩)
  have hM := checkLinkResponses_eq_ok_iff (linkPathMap links)
    (issueLinkPuts putFun (xs.map (fun x => baseUrl ++ x.url)) 0) 0
    (fun j _ _ => linkPathMap_ok links j)
  have hC : (contentPhase (.map presigned) contents presignedPutFun).1 =
      (contentPhase (.array ps) contents presignedPutFun).1.map Call.withoutChecksum := by
    rw [contentPhase_calls_array, contentPhase_calls_map, hpresigned]
    exact presignedLoops_calls_agree contents presignedPutFun ps [] [] []
  simp only [uploadFiles, linkPhase, hvals]
  cases hcA : checkLinkResponses (linkPathArray xs)
      (issueLinkPuts putFun (xs.map (fun x => baseUrl ++ x.url)) 0) 0 with
  | error eA =>
    cases hcM : checkLinkResponses (linkPathMap links)
        (issueLinkPuts putFun (xs.map (fun x => baseUrl ++ x.url)) 0) 0 with
    | error eM => simp only [map_withoutChecksum_put]
    | ok u =>
      have hall := hM.mp hcM
      rw [hA.mpr hall] at hcA
      exact absurd hcA (by simp)
  | ok u =>
    have hall := hA.mp hcA
    rw [hM.mpr hall]
    simp only [List.map_append, map_withoutChecksum_put, hC]

/-- Witness for C11: `arraySession` and its map-form counterpart for the base URL
`"http://h"`, with contents for both files. -/
theorem uploadFiles_array_map_same_requests_witness :
    (uploadFiles "http://h" arraySessionAsMap bothContents acceptingPut
        rejectingPresignedPut).calls =
      (uploadFiles "http://h" arraySession bothContents acceptingPut
        rejectingPresignedPut).calls.map Call.withoutChecksum ∧
    (uploadFiles "http://h" arraySessionAsMap bothContents acceptingPut
        rejectingPresignedPut).calls =
      [.put "http://h/link/l", .presignedPut "a.txt" "http://s3/a" none "hello",
        .presignedPut "b.txt" "http://s3/b" none "world"] :=
  ⟨uploadFiles_array_map_same_requests "http://h"
      [{ filename := "l.bin", url := "/link/l" }]
      [{ filename := "a.txt", url := "http://s3/a", md5sum := "m1" },
       { filename := "b.txt", url := "http://s3/b", md5sum := "m2" }]
      ⟨[("l.bin", "http://h/link/l")], by simp⟩
      ⟨[("a.txt", "http://s3/a"), ("b.txt", "http://s3/b")], by decide⟩
      "/complete" "/abort" "/complete" "/abort" bothContents acceptingPut
      rejectingPresignedPut rfl rfl,
    rfl⟩

/-- C12 (the code at the failing input): for a dictionary-shaped `links` with the single
entry `"l.bin"` whose PUT is answered 500, `uploadFiles` throws an HTTP error whose context
reads `path 'undefined'` and does not name `"l.bin"`. -/
theorem uploadFiles_legacy_link_failure_loses_path :
    (uploadFiles "http://h" legacyLinkSession (plainObject JsObject.empty) rejectingPut
        rejectingPresignedPut).calls = [.put "http://h/link/l"] ∧
    (uploadFiles "http://h" legacyLinkSession (plainObject JsObject.empty) rejectingPut
        rejectingPresignedPut).result =
      .error (.httpError "failed to create links for path 'undefined'" 500) :=
  ⟨rfl, rfl⟩

/-! ## Claims about `completeUpload` -/

/-- C7: after a successful completion PUT returning `job_info`, if the first `m` polls
report a pending status, poll `m + 1` reports `SUCCESS` and the budget is not used up at
any of the `m + 1` loop tests, then `completeUpload` returns
`{indexed: true, job_id: job_info.job_id}` after exactly `m + 1` calls of `getFun`
(3 calls for `PENDING, PENDING, SUCCESS`). -/
theorem completeUpload_success_after_pending (baseUrl : String) (initial : UploadSession)
    (opts : CompleteOptions) (putFun : String → Permissions → Response JobInfo)
    (getFun : Nat → String → Response JobState) (clock : Nat → Int) (job_info : JobInfo)
    (m fuel : Nat)
    (hok : (putFun (completionUrl baseUrl initial) (buildPermissions opts)).ok = true)
    (hjson : (putFun (completionUrl baseUrl initial) (buildPermissions opts)).json =
      .ok job_info)
    (hbudget : ∀ k, k ≤ m → clock (k + 1) - clock 0 < opts.indexWait * 1000)
    (hpending : ∀ k, k < m → reportsPending (getFun k (statusUrl baseUrl job_info)) = true)
    (hsuccess : reports (getFun m (statusUrl baseUrl job_info)) "SUCCESS" = true)
    (hfuel : m + 1 ≤ fuel) :
    ∃ out, completeUpload baseUrl initial opts putFun getFun clock fuel = some out ∧
      out.result = .ok { indexed := true, job_id := job_info.job_id } ∧
      out.gets = List.replicate (m + 1) (statusUrl baseUrl job_info) ∧
      out.gets.length = m + 1 := by
  obtain ⟨extra, rfl⟩ : ∃ extra, fuel = m + (extra + 1) := ⟨fuel - (m + 1), by omega⟩
  have hpoll := pollLoop_pending_then clock getFun baseUrl job_info.job_id.toJsString
    opts.indexWait m (extra + 1) (fun k hk => hbudget k (Nat.le_of_lt hk)) hpending
  rw [pollLoop_success_step clock getFun baseUrl job_info.job_id.toJsString (clock 0)
    opts.indexWait extra _ (hbudget m (Nat.le_refl m))
    (by simpa [statusUrl] using hsuccess)] at hpoll
  refine ⟨_, completeUpload_of_poll baseUrl initial opts putFun getFun clock _ job_info _ _
    hok hjson hpoll, rfl, ?_, ?_⟩
  · simp [statusUrl, List.replicate_succ']
  · simp

/-- Witness for C7: `PENDING, PENDING, SUCCESS` with the default budget of 600 s. -/
theorem completeUpload_success_after_pending_witness :
    ∃ out, completeUpload "http://h" arraySession {} completingPut pendingTwiceThenSuccess
        steadyClock 10 = some out ∧
      out.result = .ok { indexed := true, job_id := .str "job-7" } ∧
      out.gets = List.replicate (2 + 1) (statusUrl "http://h" { job_id := .str "job-7" }) ∧
      out.gets.length = 2 + 1 :=
  completeUpload_success_after_pending "http://h" arraySession {} completingPut
    pendingTwiceThenSuccess steadyClock { job_id := .str "job-7" } 2 10 rfl rfl
    (by intro k hk; interval_cases k <;> decide)
    (by intro k hk; interval_cases k <;> rfl)
    rfl (by decide)

/-- C8: after a successful completion PUT returning `job_info`, if the first `m` polls
report a pending status, poll `m + 1` reports `FAILURE` and the budget is not used up at
any of the `m + 1` loop tests, then `completeUpload` throws an `Error` whose message
contains the job id and the job-status URL `baseUrl + "/jobs/" + job id`, and `getFun`
has been called `m + 1` times and no more, however long the run is allowed to go on. -/
theorem completeUpload_failure_throws (baseUrl : String) (initial : UploadSession)
    (opts : CompleteOptions) (putFun : String → Permissions → Response JobInfo)
    (getFun : Nat → String → Response JobState) (clock : Nat → Int) (job_info : JobInfo)
    (m fuel : Nat)
    (hok : (putFun (completionUrl baseUrl initial) (buildPermissions opts)).ok = true)
    (hjson : (putFun (completionUrl baseUrl initial) (buildPermissions opts)).json =
      .ok job_info)
    (hbudget : ∀ k, k ≤ m → clock (k + 1) - clock 0 < opts.indexWait * 1000)
    (hpending : ∀ k, k < m → reportsPending (getFun k (statusUrl baseUrl job_info)) = true)
    (hfailure : reports (getFun m (statusUrl baseUrl job_info)) "FAILURE" = true)
    (hfuel : m + 1 ≤ fuel) :
    ∃ out msg, completeUpload baseUrl initial opts putFun getFun clock fuel = some out ∧
      out.result = .error (.error msg) ∧
      (∃ a b, msg = a ++ job_info.job_id.toJsString ++ b) ∧
      (∃ a b, msg = a ++ (baseUrl ++ "/jobs/" ++ job_info.job_id.toJsString) ++ b) ∧
      out.gets = List.replicate (m + 1) (statusUrl baseUrl job_info) ∧
      out.gets.length = m + 1 := by
  obtain ⟨extra, rfl⟩ : ∃ extra, fuel = m + (extra + 1) := ⟨fuel - (m + 1), by omega⟩
  have hpoll := pollLoop_pending_then clock getFun baseUrl job_info.job_id.toJsString
    opts.indexWait m (extra + 1) (fun k hk => hbudget k (Nat.le_of_lt hk)) hpending
  rw [pollLoop_failure_step clock getFun baseUrl job_info.job_id.toJsString (clock 0)
    opts.indexWait extra _ (hbudget m (Nat.le_refl m))
    (by simpa [statusUrl] using hfailure)] at hpoll
  refine ⟨_, _, completeUpload_of_poll baseUrl initial opts putFun getFun clock _ job_info _ _
    hok hjson hpoll, rfl, ?_, ?_, ?_, ?_⟩
  · exact ⟨"indexing failure on job ",
      ", see " ++ (baseUrl ++ "/jobs/" ++ job_info.job_id.toJsString) ++ " for more details",
      by simp [String.append_assoc]⟩
  · exact ⟨"indexing failure on job " ++ job_info.job_id.toJsString ++ ", see ",
      " for more details", by simp [String.append_assoc]⟩
  · simp [statusUrl, List.replicate_succ']
  · simp

/-- Witness for C8: `PENDING, FAILURE` with the default budget of 600 s. -/
theorem completeUpload_failure_throws_witness :
    ∃ out msg, completeUpload "http://h" arraySession {} completingPut pendingThenFailure
        steadyClock 10 = some out ∧
      out.result = .error (.error msg) ∧
      (∃ a b, msg = a ++ "job-7" ++ b) ∧
      (∃ a b, msg = a ++ ("http://h" ++ "/jobs/" ++ "job-7") ++ b) ∧
      out.gets = List.replicate (1 + 1) (statusUrl "http://h" { job_id := .str "job-7" }) ∧
      out.gets.length = 1 + 1 :=
  completeUpload_failure_throws "http://h" arraySession {} completingPut
    pendingThenFailure steadyClock { job_id := .str "job-7" } 1 10 rfl rfl
    (by intro k hk; interval_cases k <;> decide)
    (by intro k hk; interval_cases k; rfl)
    rfl (by decide)

/-- C9: after a successful completion PUT returning `job_info`, if every poll reports a
pending status and the elapsed time reaches the budget `indexWait * 1000` at some loop
test, then `completeUpload` polls exactly until the first loop test at which the elapsed
time has reached the budget (`n` polls), and returns
`{indexed: false, job_id: job_info.job_id}` without throwing. -/
theorem completeUpload_timeout_returns (baseUrl : String) (initial : UploadSession)
    (opts : CompleteOptions) (putFun : String → Permissions → Response JobInfo)
    (getFun : Nat → String → Response JobState) (clock : Nat → Int) (job_info : JobInfo)
    (hok : (putFun (completionUrl baseUrl initial) (buildPermissions opts)).ok = true)
    (hjson : (putFun (completionUrl baseUrl initial) (buildPermissions opts)).json =
      .ok job_info)
    (hpending : ∀ k, reportsPending (getFun k (statusUrl baseUrl job_info)) = true)
    (hadvance : ∃ n, opts.indexWait * 1000 ≤ clock (n + 1) - clock 0) :
    ∃ n, opts.indexWait * 1000 ≤ clock (n + 1) - clock 0 ∧
      (∀ k, k < n → clock (k + 1) - clock 0 < opts.indexWait * 1000) ∧
      ∀ fuel, n + 1 ≤ fuel →
        ∃ out, completeUpload baseUrl initial opts putFun getFun clock fuel = some out ∧
          out.result = .ok { indexed := false, job_id := job_info.job_id } ∧
          out.gets = List.replicate n (statusUrl baseUrl job_info) ∧
          out.gets.length = n := by
  classical
  refine ⟨Nat.find hadvance, Nat.find_spec hadvance,
    fun k hk => not_le.mp (Nat.find_min hadvance hk), ?_⟩
  intro fuel hfuel
  obtain ⟨extra, rfl⟩ : ∃ extra, fuel = Nat.find hadvance + (extra + 1) :=
    ⟨fuel - (Nat.find hadvance + 1), by omega⟩
  have hpoll := pollLoop_pending_then clock getFun baseUrl job_info.job_id.toJsString
    opts.indexWait (Nat.find hadvance) (extra + 1)
    (fun k hk => not_le.mp (Nat.find_min hadvance hk)) (fun k _ => hpending k)
  rw [pollLoop_timeout_step clock getFun baseUrl job_info.job_id.toJsString (clock 0)
    opts.indexWait extra _ (Nat.find_spec hadvance)] at hpoll
  refine ⟨_, completeUpload_of_poll baseUrl initial opts putFun getFun clock _ job_info _ _
    hok hjson hpoll, rfl, ?_, ?_⟩
  · simp [statusUrl]
  · simp

/-- Witness for C9: a job that stays `PENDING`, a budget of 7 s and a clock that advances
5 s per reading; the loop stops at its second test, after one poll. -/
theorem completeUpload_timeout_returns_witness :
    ∃ n, (7 : Int) * 1000 ≤ steadyClock (n + 1) - steadyClock 0 ∧
      (∀ k, k < n → steadyClock (k + 1) - steadyClock 0 < (7 : Int) * 1000) ∧
      ∀ fuel, n + 1 ≤ fuel →
        ∃ out, completeUpload "http://h" arraySession { indexWait := 7 } completingPut
            alwaysPending steadyClock fuel = some out ∧
          out.result = .ok { indexed := false, job_id := .str "job-7" } ∧
          out.gets = List.replicate n (statusUrl "http://h" { job_id := .str "job-7" }) ∧
          out.gets.length = n :=
  completeUpload_timeout_returns "http://h" arraySession { indexWait := 7 } completingPut
    alwaysPending steadyClock { job_id := .str "job-7" } rfl rfl (fun _ => rfl)
    ⟨1, by decide⟩

/-- C10 (the code at the failing input): the first status request is answered 500 with a
body whose `status` is `"error"`, the second 200 with `SUCCESS`. `completeUpload` does not
throw: it reads the body of the 500 response, polls again and returns
`{indexed: true, job_id: "job-7"}` after two calls of `getFun`. -/
theorem completeUpload_ignores_failed_status_request :
    (serverErrorThenSuccess 0 "http://h/jobs/job-7").ok = false ∧
    ∃ out, completeUpload "http://h" arraySession {} completingPut serverErrorThenSuccess
        steadyClock 10 = some out ∧
      out.result = .ok { indexed := true, job_id := .str "job-7" } ∧
      out.gets = ["http://h/jobs/job-7", "http://h/jobs/job-7"] :=
  ⟨rfl, _, rfl, rfl, rfl⟩

end ArtifactDB
